import Mathlib

/-!
# Distance-vector routing: a shallow embedding of `Dist_Vect.c`

The development embeds the routing core of `src/Dist_Vect.c` and states its
properties as theorems.

Modelling conventions.

* C `int` values are mathematical integers (`Int`).  Signed overflow is undefined
  behaviour in C; executions in which an addition overflows are not covered.
* C `char` values are `Char`.
* The fixed arrays of `MAX_NEIGHBORS` slots are functions out of
  `Fin MAX_NEIGHBORS`; a `for` loop over the slots is a left fold over
  `List.finRange MAX_NEIGHBORS`, carrying the variables the loop body writes.
* Reading the textual configuration (`fgets`, `atoi`) and the socket calls are
  outside the model: `Populate_From_Config` starts from the parsed records and
  `SendDistVect` is driven by an explicit description of what each transport call
  returns.
* Where C would read or write past the end of an array the model either stops
  (`none`) or leaves the missing slots out; each definition says which.
-/

set_option maxRecDepth 100000

namespace DistVect

/-! ## Constants and data model (lines 23-61 of `Dist_Vect.c`) -/

/-- `#define MAX_NEIGHBORS 6` -/
abbrev MAX_NEIGHBORS : Nat := 6

/-- `#define MAX_DIST 1000`: the distance used when no route exists. -/
def MAX_DIST : Int := 1000

/-- `#define UNKNOWN_HOP 'X'`: the next hop of an unreachable node. -/
def UNKNOWN_HOP : Char := 'X'

/-- `char nodes[7]={'A','B','C','D','E','F','G'};` -/
def nodes : List Char := ['A', 'B', 'C', 'D', 'E', 'F', 'G']

/-- `struct Neighbors` -/
structure Neighbors where
  dest : Char
  dist : Int
  ip : String
  port_no : Int
deriving DecidableEq, Inhabited

/-- `struct Element_Dist_Vector` -/
structure Element_Dist_Vector where
  dest : Char
  dist : Int
deriving DecidableEq, Inhabited

/-- `struct Distance_Vector` -/
structure Dist_Vect where
  sender : Char
  no_of_neighbors : Int
  element_Dist_Vector : Fin MAX_NEIGHBORS → Element_Dist_Vector

/-- `struct Routing_Table` -/
structure Routing_Table where
  dest : Char
  dist : Int
  next_hop : Char
deriving DecidableEq, Inhabited

/-- `struct Info_From_Config` -/
structure Info_Config where
  node_name : Char
  no_of_neighbors : Int
  port_no : Int
  neighbors : Fin MAX_NEIGHBORS → Neighbors
  routing_table : Fin MAX_NEIGHBORS → Routing_Table

/-- Assignment to one slot of an array: `a[i] = v`. -/
def setSlot {α : Type} (a : Fin MAX_NEIGHBORS → α) (i : Fin MAX_NEIGHBORS) (v : α) :
    Fin MAX_NEIGHBORS → α :=
  fun k => if k = i then v else a k

/-! ## `Update_Routing_Table` (lines 243-270) -/

/-- The first loop of `Update_Routing_Table` (lines 245-249): the link cost to
the sender.  `dist_to_nei` starts at `0`; every neighbour slot `j <
no_of_neighbors` whose `dest` equals the sender overwrites it.  Only the slots
that exist are read. -/
def Link_Cost (info_config : Info_Config) (sender : Char) : Int :=
  (List.finRange MAX_NEIGHBORS).foldl
    (fun dist_to_nei j =>
      if (j.val : Int) < info_config.no_of_neighbors then
        if (info_config.neighbors j).dest = sender then (info_config.neighbors j).dist
        else dist_to_nei
      else dist_to_nei)
    0

/-- The test of lines 257-258 for routing-table entry `e` against a vector
element: the entry is unreachable and the sender reports a distance other than
`MAX_DIST`, or the entry's distance exceeds the reported distance plus the link
cost. -/
def Improves (dist_to_nei : Int) (e : Routing_Table) (el : Element_Dist_Vector) : Prop :=
  (e.dist = MAX_DIST ∧ el.dist ≠ MAX_DIST) ∨ e.dist > el.dist + dist_to_nei

instance (c : Int) (e : Routing_Table) (el : Element_Dist_Vector) : Decidable (Improves c e el) := by
  unfold Improves; infer_instance

/-- The body of the inner loop (lines 252-266) for table slot `i` and vector
slot `j`, acting on the routing table and `Update_Flag`. -/
def Update_Step (dist_vect : Dist_Vect) (dist_to_nei : Int) (i j : Fin MAX_NEIGHBORS)
    (st : (Fin MAX_NEIGHBORS → Routing_Table) × Int) : (Fin MAX_NEIGHBORS → Routing_Table) × Int :=
  if (st.1 i).dest = (dist_vect.element_Dist_Vector j).dest then
    if Improves dist_to_nei (st.1 i) (dist_vect.element_Dist_Vector j) then
      (setSlot st.1 i
        { dest := (st.1 i).dest
          dist := (dist_vect.element_Dist_Vector j).dist + dist_to_nei
          next_hop := dist_vect.sender }, 1)
    else st
  else st

/-- The two nested loops of lines 250-268. -/
def Update_Loops (dist_vect : Dist_Vect) (dist_to_nei : Int)
    (st : (Fin MAX_NEIGHBORS → Routing_Table) × Int) : (Fin MAX_NEIGHBORS → Routing_Table) × Int :=
  (List.finRange MAX_NEIGHBORS).foldl
    (fun st i =>
      (List.finRange MAX_NEIGHBORS).foldl (fun st j => Update_Step dist_vect dist_to_nei i j st) st)
    st

/-- `int Update_Routing_Table(Info_Config *info_config, Dist_Vect *dist_vect)`:
the node state after the call and the returned `Update_Flag`. -/
def Update_Routing_Table (info_config : Info_Config) (dist_vect : Dist_Vect) : Info_Config × Int :=
  let r := Update_Loops dist_vect (Link_Cost info_config dist_vect.sender)
    (info_config.routing_table, 0)
  ({ info_config with routing_table := r.1 }, r.2)

/-! ## `Build_Distance_Vector` (lines 271-279) -/

/-- `void Build_Distance_Vector(Dist_Vect *dist_vect, Info_Config *info_config)`:
the contents of both objects after the call.  The function writes only through
`dist_vect`. -/
def Build_Distance_Vector (dist_vect : Dist_Vect) (info_config : Info_Config) :
    Dist_Vect × Info_Config :=
  let dv0 : Dist_Vect :=
    { dist_vect with sender := info_config.node_name, no_of_neighbors := info_config.no_of_neighbors }
  let dv1 := (List.finRange MAX_NEIGHBORS).foldl
    (fun (dv : Dist_Vect) j =>
      { dv with element_Dist_Vector := (setSlot dv.element_Dist_Vector j
          ⟨(info_config.routing_table j).dest, (info_config.routing_table j).dist⟩) })
    dv0
  (dv1, info_config)

/-! ## The exchange loop of `main` (lines 107-169) -/

/-- The variables of `main` that the loop reads and writes. -/
structure Main_State where
  info_config : Info_Config
  send_dist_vect : Dist_Vect

/-- How the blocking `recvfrom` of line 145 ends: interrupted by the alarm
(`errno == EINTR`, the deadline elapsed), or with a received vector. -/
inductive Loop_Event where
  | deadline_elapsed : Loop_Event
  | vector_received (rx_dist_vect : Dist_Vect) : Loop_Event

/-- Lines 107-112: build the initial vector and send it.  The result is the state
at the first wait, and the vector handed to `SendDistVect`. -/
def Main_Init (info_config : Info_Config) (send_dist_vect : Dist_Vect) : Main_State × Dist_Vect :=
  let b := Build_Distance_Vector send_dist_vect info_config
  ({ info_config := b.2, send_dist_vect := b.1 }, b.1)

/-- One event of the loop of lines 141-169, from one wait to the next: the new
state and the vector handed to `SendDistVect`, if the event leads to a send.
`SendDistVect` receives the vector by value and does not write to the state; a
call that ends the process in `DieWithError` leaves no next wait, so the step
describes the runs that go on. -/
def Main_Step (st : Main_State) : Loop_Event → Main_State × Option Dist_Vect
  | Loop_Event.deadline_elapsed => (st, some st.send_dist_vect)
  | Loop_Event.vector_received rx_dist_vect =>
    let r := Update_Routing_Table st.info_config rx_dist_vect
    if r.2 = 1 then
      let b := Build_Distance_Vector st.send_dist_vect r.1
      ({ info_config := b.2, send_dist_vect := b.1 }, some b.1)
    else
      ({ info_config := r.1, send_dist_vect := st.send_dist_vect }, none)

/-- The states of the loop at its waiting point that can be reached from the
populated node state `info_config` (with `send_dist_vect` holding arbitrary
content before the first build). -/
inductive Main_Reachable (info_config : Info_Config) (send_dist_vect : Dist_Vect) :
    Main_State → Prop where
  | init : Main_Reachable info_config send_dist_vect (Main_Init info_config send_dist_vect).1
  | step (st : Main_State) (ev : Loop_Event) :
      Main_Reachable info_config send_dist_vect st →
      Main_Reachable info_config send_dist_vect (Main_Step st ev).1

/-! ## `Populate_From_Config` (lines 289-338) -/

/-- One group of four lines of the configuration file as the loop of line 301 uses
it: `value1[0]`, `atoi(value2)`, the text of `value3`, `atoi(value4)`. -/
structure Config_Record where
  value1 : Char
  value2 : Int
  value3 : String
  value4 : Int
deriving DecidableEq, Inhabited

/-- The `for` loop of lines 303-334 for one record.  The first argument is
`nodes[i], nodes[i+1], ...`, the second is `j`; the state is `info_config` and the
local counter `no_of_neighbors`.  Two events are undefined behaviour in C and give
`none`: reading `nodes[i]` past the end of the array, and writing
`neighbors[no_of_neighbors]` past its last slot. -/
def Populate_Slots (r : Config_Record) :
    List Char → Nat → Info_Config × Nat → Option (Info_Config × Nat)
  | [], j, st => if j < MAX_NEIGHBORS then none else some st
  | n :: rest, j, (info_config, no_of_neighbors) =>
    if hj : j < MAX_NEIGHBORS then
      if n = info_config.node_name then
        Populate_Slots r rest j (info_config, no_of_neighbors)
      else if n = r.value1 then
        if 0 < r.value2 ∧ r.value2 < MAX_DIST then
          if hc : no_of_neighbors < MAX_NEIGHBORS then
            Populate_Slots r rest (j + 1)
              ({ info_config with
                  neighbors := (setSlot info_config.neighbors ⟨no_of_neighbors, hc⟩
                    ⟨r.value1, r.value2, r.value3, r.value4⟩)
                  routing_table := (setSlot info_config.routing_table ⟨j, hj⟩
                    ⟨r.value1, r.value2, n⟩) },
               no_of_neighbors + 1)
          else none
        else
          Populate_Slots r rest (j + 1)
            ({ info_config with
                routing_table := (setSlot info_config.routing_table ⟨j, hj⟩
                  ⟨(info_config.routing_table ⟨j, hj⟩).dest, MAX_DIST, UNKNOWN_HOP⟩) },
             no_of_neighbors)
      else
        Populate_Slots r rest (j + 1)
          ({ info_config with
              routing_table := (setSlot info_config.routing_table ⟨j, hj⟩
                (if (info_config.routing_table ⟨j, hj⟩).dist > MAX_DIST ∨
                    (info_config.routing_table ⟨j, hj⟩).dist = 0 ∨
                    (info_config.routing_table ⟨j, hj⟩).dist < 0 then
                  ⟨n, MAX_DIST, UNKNOWN_HOP⟩
                else
                  ⟨n, (info_config.routing_table ⟨j, hj⟩).dist,
                    (info_config.routing_table ⟨j, hj⟩).next_hop⟩)) },
           no_of_neighbors)
    else some (info_config, no_of_neighbors)

/-- The `while` loop of lines 301-336 over the records of the file: each record
runs the slot loop from `i = 0`, `j = 0` and then stores the counter in
`info_config->no_of_neighbors` (line 335). -/
def Populate_Records : List Config_Record → Info_Config × Nat → Option (Info_Config × Nat)
  | [], st => some st
  | r :: rs, st =>
    match Populate_Slots r nodes 0 st with
    | none => none
    | some (info_config, no_of_neighbors) =>
      Populate_Records rs
        ({ info_config with no_of_neighbors := (no_of_neighbors : Int) }, no_of_neighbors)

/-- `void Populate_From_Config(FILE *fp, Info_Config *info_config)` on a file whose
first two lines give `node_name` and `port_no` and whose remaining complete groups
of four lines are `records`; `info_config` is the content of the object before the
call.  (When the first two lines are missing the program exits with status 2.) -/
def Populate_From_Config (node_name : Char) (port_no : Int) (records : List Config_Record)
    (info_config : Info_Config) : Option Info_Config :=
  (Populate_Records records
    ({ info_config with node_name := node_name, port_no := port_no }, 0)).map Prod.fst

/-! ## `SendDistVect` (lines 172-242), the loop over the neighbours -/

/-- Effect of one vector element on one routing-table entry. -/
def relaxOne (sender : Char) (c : Int) (e : Routing_Table) (el : Element_Dist_Vector) :
    Routing_Table :=
  if e.dest = el.dest ∧ Improves c e el then ⟨e.dest, el.dist + c, sender⟩ else e

/-- Effect of a sequence of vector elements on one routing-table entry. -/
def relaxEntry (sender : Char) (c : Int) (els : List Element_Dist_Vector) (e : Routing_Table) :
    Routing_Table :=
  els.foldl (relaxOne sender c) e

/-- Some element of the sequence names the entry's destination and passes the
test of lines 257-258 against the entry. -/
def Fires (c : Int) (e : Routing_Table) (els : List Element_Dist_Vector) : Prop :=
  ∃ el ∈ els, e.dest = el.dest ∧ Improves c e el

instance (c : Int) (e : Routing_Table) (els : List Element_Dist_Vector) : Decidable (Fires c e els) := by
  unfold Fires; infer_instance

/-- The elements of a vector in slot order. -/
def elements (dist_vect : Dist_Vect) : List Element_Dist_Vector :=
  (List.finRange MAX_NEIGHBORS).map dist_vect.element_Dist_Vector

/-! ## Vocabulary for `Populate_From_Config` -/

/-- The nodes of `ns` other than `self`, in order. -/
def Other_Nodes (self : Char) (ns : List Char) : List Char :=
  ns.filter (fun n => decide (n ≠ self))

/-- The `j`-th node of A..G with `self` removed. -/
def Other_Node (self : Char) (j : Fin MAX_NEIGHBORS) : Char :=
  (Other_Nodes self nodes).getD j.val UNKNOWN_HOP

/-- What one record does to the routing-table slot that belongs to node `n`
(the three branches of lines 308-333). -/
def Slot_After (r : Config_Record) (n : Char) (e : Routing_Table) : Routing_Table :=
  if n = r.value1 then
    if 0 < r.value2 ∧ r.value2 < MAX_DIST then ⟨r.value1, r.value2, n⟩
    else ⟨e.dest, MAX_DIST, UNKNOWN_HOP⟩
  else
    if e.dist > MAX_DIST ∨ e.dist = 0 ∨ e.dist < 0 then ⟨n, MAX_DIST, UNKNOWN_HOP⟩
    else ⟨n, e.dist, e.next_hop⟩

/-- The record names a node other than `self` with a distance strictly between
`0` and `MAX_DIST`: the records that line 310 turns into neighbours. -/
def Is_Link (self : Char) (r : Config_Record) : Prop :=
  r.value1 ∈ Other_Nodes self nodes ∧ 0 < r.value2 ∧ r.value2 < MAX_DIST

instance (self : Char) (r : Config_Record) : Decidable (Is_Link self r) := by
  unfold Is_Link; infer_instance

/-- The neighbour entry written for a record (lines 311-314). -/
def To_Neighbor (r : Config_Record) : Neighbors := ⟨r.value1, r.value2, r.value3, r.value4⟩

/-- What holds of the node state and of the local counter once the records `done`
have gone through the loop of lines 301-336. -/
def Populate_Inv (self : Char) (port : Int) (done : List Config_Record) (info : Info_Config)
    (cnt : Nat) : Prop :=
  info.node_name = self ∧ info.port_no = port ∧
  cnt = (done.filter (fun r => decide (Is_Link self r))).length ∧
  (done ≠ [] → info.no_of_neighbors = (cnt : Int)) ∧
  (∀ (k : Fin MAX_NEIGHBORS) (r : Config_Record),
    (done.filter (fun r => decide (Is_Link self r)))[k.val]? = some r →
    info.neighbors k = To_Neighbor r) ∧
  (∀ (k : Fin MAX_NEIGHBORS), ∀ r ∈ done, r.value1 = Other_Node self k →
    ((0 < r.value2 ∧ r.value2 < MAX_DIST) →
      info.routing_table k = ⟨Other_Node self k, r.value2, Other_Node self k⟩) ∧
    (¬ (0 < r.value2 ∧ r.value2 < MAX_DIST) →
      (info.routing_table k).dist = MAX_DIST ∧ (info.routing_table k).next_hop = UNKNOWN_HOP)) ∧
  (∀ (k : Fin MAX_NEIGHBORS), (∃ r ∈ done, r.value1 ≠ Other_Node self k) →
    (info.routing_table k).dest = Other_Node self k)

/-! ## A network of nodes exchanging vectors in rounds

The program runs one node.  A network is one node state per node symbol; in a
round every node applies `Update_Routing_Table` to the vectors that
`Build_Distance_Vector` produces from the tables its neighbours held at the start
of the round, in the order of its neighbour list. -/

/-- A static topology: the distance configured at node `u` for node `v`. -/
structure Topology where
  cost : Char → Char → Int

/-- The records of the configuration file of node `self`: one record for each
other node, in the order of `nodes`, with the distance of the topology. -/
def Config_Of (topo : Topology) (self : Char) : List Config_Record :=
  (Other_Nodes self nodes).map (fun n => ⟨n, topo.cost self n, "", 0⟩)

/-- The node states after every node has run `Populate_From_Config` on its own
configuration; `prior u` is what the object of node `u` held before. -/
def Network_Start (topo : Topology) (prior : Char → Info_Config) : Char → Info_Config :=
  fun u => (Populate_From_Config u 0 (Config_Of topo u) (prior u)).getD (prior u)

/-- Content of a `Dist_Vect` object before `Build_Distance_Vector` fills it. -/
def blankVector : Dist_Vect :=
  { sender := '?', no_of_neighbors := 0, element_Dist_Vector := fun _ => ⟨'?', 0⟩ }

/-- A node applies `Update_Routing_Table` to the vector of each of its neighbours,
in neighbour-list order; the vectors are built from the states in `net`. -/
def Receive_From (net : Char → Info_Config) (slots : List (Fin MAX_NEIGHBORS))
    (info_config : Info_Config) : Info_Config :=
  slots.foldl
    (fun acc j =>
      if (j.val : Int) < acc.no_of_neighbors then
        (Update_Routing_Table acc
          (Build_Distance_Vector blankVector (net (acc.neighbors j).dest)).1).1
      else acc)
    info_config

/-- One full round of exchange. -/
def Exchange_Round (net : Char → Info_Config) : Char → Info_Config :=
  fun u => Receive_From net (List.finRange MAX_NEIGHBORS) (net u)

/-- The network after `n` full rounds. -/
def Exchange_Rounds : Nat → (Char → Info_Config) → (Char → Info_Config)
  | 0, net => net
  | n + 1, net => Exchange_Round (Exchange_Rounds n net)

/-- Node `u` has a direct link to node `v`: the configured distance is strictly
between `0` and `MAX_DIST`. -/
def Has_Link (topo : Topology) (u v : Char) : Prop :=
  v ∈ nodes ∧ v ≠ u ∧ 0 < topo.cost u v ∧ topo.cost u v < MAX_DIST

instance (topo : Topology) (u v : Char) : Decidable (Has_Link topo u v) := by
  unfold Has_Link; infer_instance

/-- The nodes `p` visited after `u` form a walk along direct links. -/
def Is_Walk (topo : Topology) : Char → List Char → Prop
  | _, [] => True
  | u, v :: rest => Has_Link topo u v ∧ Is_Walk topo v rest

/-- The sum of the link costs along a walk. -/
def Walk_Cost (topo : Topology) : Char → List Char → Int
  | _, [] => 0
  | u, v :: rest => topo.cost u v + Walk_Cost topo v rest

/-- The node a walk ends at. -/
def Walk_End : Char → List Char → Char
  | u, [] => u
  | _, v :: rest => Walk_End v rest

/-- `x` is the shortest-path distance from `u` to `d`: the cost of some walk from
`u` to `d`, and no walk from `u` to `d` costs less. -/
def Is_Shortest (topo : Topology) (u d : Char) (x : Int) : Prop :=
  (∃ p, Is_Walk topo u p ∧ Walk_End u p = d ∧ Walk_Cost topo u p = x) ∧
  ∀ p, Is_Walk topo u p → Walk_End u p = d → x ≤ Walk_Cost topo u p

/-- The state of node `u` fits the topology: its name, the destination of each
routing-table slot, and a neighbour list that names exactly the nodes `u` has a
link to, each with the cost of the link. -/
def Well_Formed (topo : Topology) (u : Char) (info : Info_Config) : Prop :=
  info.node_name = u ∧
  (∀ j, (info.routing_table j).dest = Other_Node u j) ∧
  (∀ (n : Char) (d : Int),
    (∃ k : Fin MAX_NEIGHBORS, (k.val : Int) < info.no_of_neighbors ∧
      (info.neighbors k).dest = n ∧ (info.neighbors k).dist = d) ↔
    (Has_Link topo u n ∧ d = topo.cost u n))

/-- Every distance in the table of node `u` is at least `MAX_DIST` or the cost of a
walk from `u` to the destination of its slot. -/
def Walk_Backed (topo : Topology) (u : Char) (info : Info_Config) : Prop :=
  ∀ j, MAX_DIST ≤ (info.routing_table j).dist ∨
    ∃ p, Is_Walk topo u p ∧ Walk_End u p = Other_Node u j ∧
      Walk_Cost topo u p = (info.routing_table j).dist

/-- No distance in the table of node `u` exceeds the cost of a walk of at most
`k + 1` links and cost below `MAX_DIST` to the destination of its slot. -/
def Within_Hops (topo : Topology) (k : Nat) (u : Char) (info : Info_Config) : Prop :=
  ∀ j p, Is_Walk topo u p → Walk_End u p = Other_Node u j → p.length ≤ k + 1 →
    Walk_Cost topo u p < MAX_DIST → (info.routing_table j).dist ≤ Walk_Cost topo u p

/-- The invariant of the rounds: after `k` rounds every node of A..G is well formed,
its distances are backed by walks, and they are within the cost of every walk of at
most `k + 1` links. -/
def Net_Inv (topo : Topology) (k : Nat) (net : Char → Info_Config) : Prop :=
  ∀ u ∈ nodes, Well_Formed topo u (net u) ∧ Walk_Backed topo u (net u) ∧
    Within_Hops topo k u (net u)

/-- The network has converged at node `u`: every slot of its table holds the
shortest-path distance to its destination, and `Update_Routing_Table` returns 0 on
the vector of each neighbour. -/
def Converged_At (topo : Topology) (net : Char → Info_Config) (u : Char) : Prop :=
  (∀ j, ((net u).routing_table j).dest = Other_Node u j ∧
    Is_Shortest topo u (Other_Node u j) ((net u).routing_table j).dist) ∧
  (∀ k : Fin MAX_NEIGHBORS, (k.val : Int) < (net u).no_of_neighbors →
    (Update_Routing_Table (net u)
      (Build_Distance_Vector blankVector (net ((net u).neighbors k).dest)).1).2 = 0)

instance decidableIsWalk (topo : Topology) :
    (u : Char) → (p : List Char) → Decidable (Is_Walk topo u p)
  | _, [] => isTrue trivial
  | u, v :: rest =>
    have := decidableIsWalk topo v rest
    inferInstanceAs (Decidable (Has_Link topo u v ∧ Is_Walk topo v rest))

/-! ## Concrete scenario of the specification -/

/-- Filler for unused neighbour slots. -/
def noNeighbor : Neighbors := { dest := '-', dist := 0, ip := "", port_no := 0 }

/-- Node A with the single neighbour B at cost 1; every other node unreachable. -/
def nodeA : Info_Config :=
  { node_name := 'A'
    no_of_neighbors := 1
    port_no := 5000
    neighbors := ![{ dest := 'B', dist := 1, ip := "10.0.0.2", port_no := 5001 },
      noNeighbor, noNeighbor, noNeighbor, noNeighbor, noNeighbor]
    routing_table := ![⟨'B', 1, 'B'⟩, ⟨'C', 1000, 'X'⟩, ⟨'D', 1000, 'X'⟩,
      ⟨'E', 1000, 'X'⟩, ⟨'F', 1000, 'X'⟩, ⟨'G', 1000, 'X'⟩] }

/-- The vector B sends when it reaches A and C at cost 1 and nothing else. -/
def vectorB : Dist_Vect :=
  { sender := 'B'
    no_of_neighbors := 2
    element_Dist_Vector := ![⟨'A', 1⟩, ⟨'C', 1⟩, ⟨'D', 1000⟩, ⟨'E', 1000⟩, ⟨'F', 1000⟩, ⟨'G', 1000⟩] }

/-- Node A with the single neighbour B at cost 5; every other node unreachable. -/
def nodeA5 : Info_Config :=
  { node_name := 'A'
    no_of_neighbors := 1
    port_no := 5000
    neighbors := ![{ dest := 'B', dist := 5, ip := "10.0.0.2", port_no := 5001 },
      noNeighbor, noNeighbor, noNeighbor, noNeighbor, noNeighbor]
    routing_table := ![⟨'B', 5, 'B'⟩, ⟨'C', 1000, 'X'⟩, ⟨'D', 1000, 'X'⟩,
      ⟨'E', 1000, 'X'⟩, ⟨'F', 1000, 'X'⟩, ⟨'G', 1000, 'X'⟩] }

/-- A vector from B that reports C at distance 999. -/
def vectorB999 : Dist_Vect :=
  { sender := 'B'
    no_of_neighbors := 2
    element_Dist_Vector := ![⟨'A', 1⟩, ⟨'C', 999⟩, ⟨'D', 1000⟩, ⟨'E', 1000⟩, ⟨'F', 1000⟩, ⟨'G', 1000⟩] }

/-- A vector from B that names C in two slots, with distances 1000 and 2000. -/
def vectorBTwice : Dist_Vect :=
  { sender := 'B'
    no_of_neighbors := 2
    element_Dist_Vector := ![⟨'A', 1⟩, ⟨'C', 1000⟩, ⟨'C', 2000⟩, ⟨'E', 1000⟩, ⟨'F', 1000⟩, ⟨'G', 1000⟩] }

/-- A vector from C, which is not a neighbour of `nodeA`; C reaches B and D at cost 1. -/
def vectorC : Dist_Vect :=
  { sender := 'C'
    no_of_neighbors := 2
    element_Dist_Vector := ![⟨'A', 1000⟩, ⟨'B', 1⟩, ⟨'D', 1⟩, ⟨'E', 1000⟩, ⟨'F', 1000⟩, ⟨'G', 1000⟩] }

/-- Arbitrary prior content of an `Info_Config` object: distances that look valid
with meaningless next hops, and one negative neighbour count. -/
def garbageInfo : Info_Config :=
  { node_name := '?'
    no_of_neighbors := -7
    port_no := 12345
    neighbors := fun _ => { dest := '#', dist := 77, ip := "junk", port_no := 9 }
    routing_table := ![⟨'q', 5, 'Q'⟩, ⟨'r', 0, 'R'⟩, ⟨'s', -3, 'S'⟩,
      ⟨'t', 2000, 'T'⟩, ⟨'u', 1000, 'U'⟩, ⟨'v', 999, 'V'⟩] }

/-- The records of a configuration file for node B: links to A (1) and C (1),
no link to D, E, F (distance 0, negative, `MAX_DIST`) and G (above `MAX_DIST`). -/
def configB : List Config_Record :=
  [⟨'C', 1, "10.0.0.3", 5002⟩, ⟨'A', 1, "10.0.0.1", 5000⟩, ⟨'D', 0, "10.0.0.4", 5003⟩,
   ⟨'E', -1, "10.0.0.5", 5004⟩, ⟨'F', 1000, "10.0.0.6", 5005⟩, ⟨'G', 1500, "10.0.0.7", 5006⟩]

/-- A topology with hub A: every other node has a link of cost 1 to A, and B and C
have in addition a direct link of cost 5 (dearer than the way over A). -/
def hubTopology : Topology :=
  { cost := fun u v =>
      if u = v then 0
      else if u = 'A' ∨ v = 'A' then 1
      else if (u = 'B' ∧ v = 'C') ∨ (u = 'C' ∧ v = 'B') then 5
      else 0 }

/-- The shortest-path distances of `hubTopology`. -/
def hubDistance (u d : Char) : Int :=
  if u = d then 0 else if u = 'A' ∨ d = 'A' then 1 else 2

/-- A least-cost walk of `hubTopology` from `u` to `d`. -/
def hubPath (u d : Char) : List Char :=
  if u = 'A' ∨ d = 'A' then [d] else ['A', d]

/-- A topology in which every two nodes have a direct link: the links A-B, B-C and
C-D cost 1, every other link costs 10. -/
def meshTopology : Topology :=
  { cost := fun u v =>
      if u = v then 0
      else if (u = 'A' ∧ v = 'B') ∨ (u = 'B' ∧ v = 'A') ∨ (u = 'B' ∧ v = 'C') ∨
          (u = 'C' ∧ v = 'B') ∨ (u = 'C' ∧ v = 'D') ∨ (u = 'D' ∧ v = 'C') then 1
      else 10 }

/-- The nodes on the cheap chain of `meshTopology`, in order. -/
def meshChain : List Char := ['A', 'B', 'C', 'D']

/-- The shortest-path distances of `meshTopology`: along the chain where both nodes
lie on it, the direct link otherwise. -/
def meshDistance (u d : Char) : Int :=
  if u = d then 0
  else if meshChain.indexOf u < 4 ∧ meshChain.indexOf d < 4 then
    (((meshChain.indexOf u : Int) - (meshChain.indexOf d : Int)).natAbs : Int)
  else 10

/-- A least-cost walk of `meshTopology` from `u` to `d`. -/
def meshPath (u d : Char) : List Char :=
  if meshChain.indexOf u < 4 ∧ meshChain.indexOf d < 4 then
    if meshChain.indexOf u < meshChain.indexOf d then
      (meshChain.drop (meshChain.indexOf u + 1)).take (meshChain.indexOf d - meshChain.indexOf u)
    else ((meshChain.take (meshChain.indexOf u)).drop (meshChain.indexOf d)).reverse
  else [d]

/-! ## Lemmas on the update loops -/

theorem setSlot_same {α : Type} (a : Fin MAX_NEIGHBORS → α) (i : Fin MAX_NEIGHBORS) (v : α) :
    setSlot a i v i = v := by
  simp [setSlot]

theorem setSlot_other {α : Type} (a : Fin MAX_NEIGHBORS → α) (i k : Fin MAX_NEIGHBORS) (v : α)
    (h : k ≠ i) : setSlot a i v k = a k := by
  simp [setSlot, h]

theorem setSlot_setSlot {α : Type} (a : Fin MAX_NEIGHBORS → α) (i : Fin MAX_NEIGHBORS) (v w : α) :
    setSlot (setSlot a i v) i w = setSlot a i w := by
  funext k
  by_cases h : k = i <;> simp [setSlot, h]

theorem setSlot_self {α : Type} (a : Fin MAX_NEIGHBORS → α) (i : Fin MAX_NEIGHBORS) :
    setSlot a i (a i) = a := by
  funext k
  by_cases h : k = i <;> simp [setSlot, h]

theorem relaxOne_dest (s : Char) (c : Int) (e : Routing_Table) (el : Element_Dist_Vector) :
    (relaxOne s c e el).dest = e.dest := by
  unfold relaxOne
  split <;> rfl

theorem relaxEntry_dest (s : Char) (c : Int) (els : List Element_Dist_Vector) :
    ∀ e : Routing_Table, (relaxEntry s c els e).dest = e.dest := by
  induction els with
  | nil => intro e; rfl
  | cons el els ih =>
    intro e
    show (relaxEntry s c els (relaxOne s c e el)).dest = e.dest
    rw [ih, relaxOne_dest]

theorem relaxEntry_cons (s : Char) (c : Int) (el : Element_Dist_Vector)
    (els : List Element_Dist_Vector) (e : Routing_Table) :
    relaxEntry s c (el :: els) e = relaxEntry s c els (relaxOne s c e el) := rfl

theorem Fires_cons (c : Int) (e : Routing_Table) (el : Element_Dist_Vector)
    (els : List Element_Dist_Vector) :
    Fires c e (el :: els) ↔ (e.dest = el.dest ∧ Improves c e el) ∨ Fires c e els := by
  simp [Fires]

theorem relaxEntry_of_not_Fires (s : Char) (c : Int) (els : List Element_Dist_Vector) :
    ∀ e : Routing_Table, ¬ Fires c e els → relaxEntry s c els e = e := by
  induction els with
  | nil => intro e _; rfl
  | cons el els ih =>
    intro e h
    rw [Fires_cons] at h
    push_neg at h
    have h1 : relaxOne s c e el = e := by
      unfold relaxOne
      rw [if_neg (fun hh => h.1 hh.1 hh.2)]
    rw [relaxEntry_cons, h1]
    exact ih e h.2

/-- One pass of the inner loop body, seen on entry `i` alone. -/
theorem Update_Step_eq (dv : Dist_Vect) (c : Int) (i j : Fin MAX_NEIGHBORS)
    (rt : Fin MAX_NEIGHBORS → Routing_Table) (f : Int) :
    Update_Step dv c i j (rt, f) =
      (setSlot rt i (relaxOne dv.sender c (rt i) (dv.element_Dist_Vector j)),
       if (rt i).dest = (dv.element_Dist_Vector j).dest ∧
          Improves c (rt i) (dv.element_Dist_Vector j) then 1 else f) := by
  unfold Update_Step relaxOne
  by_cases h1 : (rt i).dest = (dv.element_Dist_Vector j).dest
  · by_cases h2 : Improves c (rt i) (dv.element_Dist_Vector j)
    · simp [h1, h2]
    · simp [h1, h2, setSlot_self]
  · simp [h1, setSlot_self]

/-- The inner loop over any list of vector slots. -/
theorem inner_loop_eq (dv : Dist_Vect) (c : Int) (i : Fin MAX_NEIGHBORS)
    (js : List (Fin MAX_NEIGHBORS)) :
    ∀ (rt : Fin MAX_NEIGHBORS → Routing_Table) (f : Int),
      js.foldl (fun st j => Update_Step dv c i j st) (rt, f) =
        (setSlot rt i (relaxEntry dv.sender c (js.map dv.element_Dist_Vector) (rt i)),
         if Fires c (rt i) (js.map dv.element_Dist_Vector) then 1 else f) := by
  induction js with
  | nil =>
    intro rt f
    simp [relaxEntry, Fires, setSlot_self]
  | cons j js ih =>
    intro rt f
    rw [List.foldl_cons, Update_Step_eq, ih]
    rw [setSlot_same, setSlot_setSlot, List.map_cons, relaxEntry_cons]
    refine Prod.ext rfl ?_
    show (if _ then (1 : Int) else (if _ then 1 else f)) = (if _ then 1 else f)
    by_cases h : (rt i).dest = (dv.element_Dist_Vector j).dest ∧
        Improves c (rt i) (dv.element_Dist_Vector j)
    · rw [if_pos h, if_pos ((Fires_cons _ _ _ _).mpr (Or.inl h))]
      split <;> rfl
    · have h1 : relaxOne dv.sender c (rt i) (dv.element_Dist_Vector j) = rt i := by
        unfold relaxOne
        rw [if_neg h]
      rw [h1, if_neg h]
      by_cases h2 : Fires c (rt i) (List.map dv.element_Dist_Vector js)
      · rw [if_pos h2, if_pos ((Fires_cons _ _ _ _).mpr (Or.inr h2))]
      · rw [if_neg h2, if_neg (fun hh => ((Fires_cons _ _ _ _).mp hh).elim h h2)]

/-- The inner loop over all vector slots. -/
theorem inner_loop_all (dv : Dist_Vect) (c : Int) (i : Fin MAX_NEIGHBORS)
    (rt : Fin MAX_NEIGHBORS → Routing_Table) (f : Int) :
    (List.finRange MAX_NEIGHBORS).foldl (fun st j => Update_Step dv c i j st) (rt, f) =
      (setSlot rt i (relaxEntry dv.sender c (elements dv) (rt i)),
       if Fires c (rt i) (elements dv) then 1 else f) :=
  inner_loop_eq dv c i (List.finRange MAX_NEIGHBORS) rt f

/-- The outer loop over any duplicate-free list of table slots. -/
theorem outer_loop_eq (dv : Dist_Vect) (c : Int) (is : List (Fin MAX_NEIGHBORS)) :
    ∀ (rt : Fin MAX_NEIGHBORS → Routing_Table) (f : Int), is.Nodup →
      is.foldl (fun st i =>
          (List.finRange MAX_NEIGHBORS).foldl (fun st j => Update_Step dv c i j st) st) (rt, f) =
        ((fun k => if k ∈ is then relaxEntry dv.sender c (elements dv) (rt k) else rt k),
         if ∃ k ∈ is, Fires c (rt k) (elements dv) then 1 else f) := by
  induction is with
  | nil =>
    intro rt f _
    simp
  | cons i is ih =>
    intro rt f hnd
    rw [List.nodup_cons] at hnd
    rw [List.foldl_cons, inner_loop_all, ih _ _ hnd.2]
    have hk : ∀ k ∈ is, setSlot rt i (relaxEntry dv.sender c (elements dv) (rt i)) k = rt k := by
      intro k hk
      apply setSlot_other
      rintro rfl
      exact hnd.1 hk
    refine Prod.ext ?_ ?_
    · funext k
      show (if k ∈ is then _ else _) = (if k ∈ i :: is then _ else _)
      by_cases h1 : k ∈ is
      · rw [if_pos h1, if_pos (List.mem_cons_of_mem _ h1), hk k h1]
      · rw [if_neg h1]
        by_cases h2 : k = i
        · subst h2
          rw [if_pos (List.mem_cons_self _ _), setSlot_same]
        · rw [if_neg (by simp [h1, h2]), setSlot_other _ _ _ _ h2]
    · show (if _ then (1 : Int) else (if _ then 1 else f)) = (if _ then 1 else f)
      by_cases h1 : ∃ k ∈ is, Fires c (rt k) (elements dv)
      · have h2 : ∃ k ∈ is,
            Fires c (setSlot rt i (relaxEntry dv.sender c (elements dv) (rt i)) k) (elements dv) := by
          obtain ⟨k, hk1, hk2⟩ := h1
          exact ⟨k, hk1, by rw [hk k hk1]; exact hk2⟩
        have h3 : ∃ k ∈ i :: is, Fires c (rt k) (elements dv) := by
          obtain ⟨k, hk1, hk2⟩ := h1
          exact ⟨k, List.mem_cons_of_mem _ hk1, hk2⟩
        rw [if_pos h2, if_pos h3]
      · have h2 : ¬ ∃ k ∈ is,
            Fires c (setSlot rt i (relaxEntry dv.sender c (elements dv) (rt i)) k) (elements dv) := by
          rintro ⟨k, hk1, hk2⟩
          rw [hk k hk1] at hk2
          exact h1 ⟨k, hk1, hk2⟩
        rw [if_neg h2]
        by_cases h4 : Fires c (rt i) (elements dv)
        · have h3 : ∃ k ∈ i :: is, Fires c (rt k) (elements dv) :=
            ⟨i, List.mem_cons_self _ _, h4⟩
          rw [if_pos h3, if_pos h4]
        · have h3 : ¬ ∃ k ∈ i :: is, Fires c (rt k) (elements dv) := by
            rintro ⟨k, hk1, hk2⟩
            rcases List.mem_cons.mp hk1 with rfl | hk1
            · exact h4 hk2
            · exact h1 ⟨k, hk1, hk2⟩
          rw [if_neg h3, if_neg h4]

theorem Update_Routing_Table_table (info : Info_Config) (dv : Dist_Vect) :
    (Update_Routing_Table info dv).1.routing_table =
      (Update_Loops dv (Link_Cost info dv.sender) (info.routing_table, 0)).1 := by
  simp only [Update_Routing_Table]

theorem Update_Routing_Table_snd (info : Info_Config) (dv : Dist_Vect) :
    (Update_Routing_Table info dv).2 =
      (Update_Loops dv (Link_Cost info dv.sender) (info.routing_table, 0)).2 := by
  simp only [Update_Routing_Table]

theorem Update_Loops_eq (dv : Dist_Vect) (c : Int) (rt : Fin MAX_NEIGHBORS → Routing_Table)
    (f : Int) :
    Update_Loops dv c (rt, f) =
      ((fun k => relaxEntry dv.sender c (elements dv) (rt k)),
       if ∃ k, Fires c (rt k) (elements dv) then 1 else f) := by
  simp only [Update_Loops]
  rw [outer_loop_eq _ _ _ _ _ (List.nodup_finRange _)]
  refine Prod.ext ?_ ?_
  · funext k
    show (if k ∈ List.finRange MAX_NEIGHBORS then _ else _) = _
    rw [if_pos (List.mem_finRange k)]
  · show (if _ then (1 : Int) else f) = (if _ then 1 else f)
    by_cases h : ∃ k, Fires c (rt k) (elements dv)
    · obtain ⟨k, hk⟩ := h
      rw [if_pos ⟨k, List.mem_finRange k, hk⟩, if_pos ⟨k, hk⟩]
    · rw [if_neg h, if_neg (fun ⟨k, _, hk⟩ => h ⟨k, hk⟩)]

/-- The routing table after `Update_Routing_Table`, entry by entry. -/
theorem Update_table (info : Info_Config) (dv : Dist_Vect) (k : Fin MAX_NEIGHBORS) :
    (Update_Routing_Table info dv).1.routing_table k =
      relaxEntry dv.sender (Link_Cost info dv.sender) (elements dv) (info.routing_table k) := by
  rw [Update_Routing_Table_table, Update_Loops_eq]

/-- The value returned by `Update_Routing_Table`. -/
theorem Update_flag (info : Info_Config) (dv : Dist_Vect) :
    (Update_Routing_Table info dv).2 =
      if ∃ k, Fires (Link_Cost info dv.sender) (info.routing_table k) (elements dv) then 1 else 0 := by
  rw [Update_Routing_Table_snd, Update_Loops_eq]

/-- The fields other than the routing table are not written. -/
theorem Update_frame (info : Info_Config) (dv : Dist_Vect) :
    (Update_Routing_Table info dv).1.node_name = info.node_name ∧
    (Update_Routing_Table info dv).1.no_of_neighbors = info.no_of_neighbors ∧
    (Update_Routing_Table info dv).1.port_no = info.port_no ∧
    (Update_Routing_Table info dv).1.neighbors = info.neighbors := by
  simp only [Update_Routing_Table, and_self]

/-! ## Entry-level facts -/

theorem mem_elements (dv : Dist_Vect) (el : Element_Dist_Vector) :
    el ∈ elements dv ↔ ∃ j, dv.element_Dist_Vector j = el := by
  simp [elements, List.mem_map, List.mem_finRange]

theorem Fires_elements (c : Int) (e : Routing_Table) (dv : Dist_Vect) :
    Fires c e (elements dv) ↔
      ∃ j, e.dest = (dv.element_Dist_Vector j).dest ∧ Improves c e (dv.element_Dist_Vector j) := by
  constructor
  · rintro ⟨el, hel, h⟩
    obtain ⟨j, rfl⟩ := (mem_elements dv el).mp hel
    exact ⟨j, h⟩
  · rintro ⟨j, h⟩
    exact ⟨_, (mem_elements dv _).mpr ⟨j, rfl⟩, h⟩

theorem elements_nodup (dv : Dist_Vect)
    (huniq : ∀ j j2, (dv.element_Dist_Vector j).dest = (dv.element_Dist_Vector j2).dest → j = j2) :
    ((elements dv).map (fun el => el.dest)).Nodup := by
  unfold elements
  rw [List.map_map]
  exact List.Nodup.map (fun j j2 h => huniq j j2 h) (List.nodup_finRange _)

/-- When the elements name pairwise different destinations, only the element
naming the entry's destination acts on the entry. -/
theorem relaxEntry_unique (s : Char) (c : Int) (els : List Element_Dist_Vector) :
    (els.map (fun el => el.dest)).Nodup → ∀ (e : Routing_Table) (el : Element_Dist_Vector),
      el ∈ els → e.dest = el.dest → relaxEntry s c els e = relaxOne s c e el := by
  induction els with
  | nil => intro _ e el h; simp at h
  | cons hd tl ih =>
    intro hnd e el hel hdest
    rw [List.map_cons, List.nodup_cons] at hnd
    rw [relaxEntry_cons]
    rcases List.mem_cons.mp hel with rfl | hmem
    · apply relaxEntry_of_not_Fires
      rintro ⟨el2, hel2, hd2, _⟩
      rw [relaxOne_dest] at hd2
      apply hnd.1
      rw [← hdest, hd2]
      exact List.mem_map.mpr ⟨el2, hel2, rfl⟩
    · have hne : ¬ (e.dest = hd.dest ∧ Improves c e hd) := by
        rintro ⟨h1, _⟩
        apply hnd.1
        rw [← h1, hdest]
        exact List.mem_map.mpr ⟨el, hmem, rfl⟩
      have h1 : relaxOne s c e hd = e := by
        unfold relaxOne
        rw [if_neg hne]
      rw [h1]
      exact ih hnd.2 e el hmem hdest

theorem Fires_unique (c : Int) (els : List Element_Dist_Vector)
    (hnd : (els.map (fun el => el.dest)).Nodup) (e : Routing_Table) (el : Element_Dist_Vector)
    (hel : el ∈ els) (hdest : e.dest = el.dest) :
    Fires c e els ↔ Improves c e el := by
  constructor
  · rintro ⟨el2, hel2, hd2, himp⟩
    have : el2 = el := by
      have hinj := List.inj_on_of_nodup_map hnd
      exact hinj hel2 hel (by rw [← hd2, hdest])
    rw [← this]
    exact himp
  · intro h
    exact ⟨el, hel, hdest, h⟩

/-- The returned flag is `0` or `1`. -/
theorem Update_flag_zero_or_one (info : Info_Config) (dv : Dist_Vect) :
    (Update_Routing_Table info dv).2 = 0 ∨ (Update_Routing_Table info dv).2 = 1 := by
  rw [Update_flag]
  split
  · exact Or.inr rfl
  · exact Or.inl rfl

theorem Update_flag_eq_one_iff (info : Info_Config) (dv : Dist_Vect) :
    (Update_Routing_Table info dv).2 = 1 ↔
      ∃ k, Fires (Link_Cost info dv.sender) (info.routing_table k) (elements dv) := by
  rw [Update_flag]
  split
  · rename_i h
    simp only [true_iff]
    exact h
  · rename_i h
    simp only [zero_ne_one, false_iff]
    exact h

theorem Update_flag_eq_zero_iff (info : Info_Config) (dv : Dist_Vect) :
    (Update_Routing_Table info dv).2 = 0 ↔
      ∀ k, ¬ Fires (Link_Cost info dv.sender) (info.routing_table k) (elements dv) := by
  rw [Update_flag]
  split
  · rename_i h
    simp only [one_ne_zero, false_iff, not_forall, not_not]
    exact h
  · rename_i h
    simp only [true_iff]
    exact fun k hk => h ⟨k, hk⟩

/-- A return value of `0` leaves the routing table as it was. -/
theorem Update_unchanged_of_flag_zero (info : Info_Config) (dv : Dist_Vect)
    (h : (Update_Routing_Table info dv).2 = 0) :
    (Update_Routing_Table info dv).1.routing_table = info.routing_table := by
  funext k
  rw [Update_table]
  exact relaxEntry_of_not_Fires _ _ _ _ ((Update_flag_eq_zero_iff info dv).mp h k)

/-! ## The link cost found by the first loop -/

theorem Link_Cost_fold_cases (info : Info_Config) (s : Char) (js : List (Fin MAX_NEIGHBORS)) :
    ∀ c0 : Int,
      let r := js.foldl
        (fun dist_to_nei j =>
          if (j.val : Int) < info.no_of_neighbors then
            if (info.neighbors j).dest = s then (info.neighbors j).dist else dist_to_nei
          else dist_to_nei) c0
      (r = c0 ∧ ∀ j ∈ js, (j.val : Int) < info.no_of_neighbors → (info.neighbors j).dest ≠ s) ∨
      (∃ j ∈ js, (j.val : Int) < info.no_of_neighbors ∧ (info.neighbors j).dest = s ∧
        r = (info.neighbors j).dist) := by
  induction js with
  | nil => intro c0; simp
  | cons j js ih =>
    intro c0
    simp only [List.foldl_cons]
    by_cases h1 : (j.val : Int) < info.no_of_neighbors
    · by_cases h2 : (info.neighbors j).dest = s
      · rw [if_pos h1, if_pos h2]
        rcases ih (info.neighbors j).dist with ⟨h3, _⟩ | ⟨j2, hj2, h3⟩
        · exact Or.inr ⟨j, List.mem_cons_self _ _, h1, h2, h3⟩
        · exact Or.inr ⟨j2, List.mem_cons_of_mem _ hj2, h3⟩
      · rw [if_pos h1, if_neg h2]
        rcases ih c0 with ⟨h3, h4⟩ | ⟨j2, hj2, h3⟩
        · refine Or.inl ⟨h3, ?_⟩
          intro k hk
          rcases List.mem_cons.mp hk with rfl | hk
          · exact fun _ => h2
          · exact h4 k hk
        · exact Or.inr ⟨j2, List.mem_cons_of_mem _ hj2, h3⟩
    · rw [if_neg h1]
      rcases ih c0 with ⟨h3, h4⟩ | ⟨j2, hj2, h3⟩
      · refine Or.inl ⟨h3, ?_⟩
        intro k hk
        rcases List.mem_cons.mp hk with rfl | hk
        · exact fun hh => absurd hh h1
        · exact h4 k hk
      · exact Or.inr ⟨j2, List.mem_cons_of_mem _ hj2, h3⟩

/-- The link cost is `0` when no neighbour slot names the sender, and otherwise
the `dist` of a neighbour slot that names it. -/
theorem Link_Cost_cases (info : Info_Config) (s : Char) :
    (Link_Cost info s = 0 ∧
      ∀ j : Fin MAX_NEIGHBORS, (j.val : Int) < info.no_of_neighbors → (info.neighbors j).dest ≠ s) ∨
    (∃ j : Fin MAX_NEIGHBORS, (j.val : Int) < info.no_of_neighbors ∧ (info.neighbors j).dest = s ∧
      Link_Cost info s = (info.neighbors j).dist) := by
  rcases Link_Cost_fold_cases info s (List.finRange MAX_NEIGHBORS) 0 with ⟨h1, h2⟩ | ⟨j, _, h⟩
  · exact Or.inl ⟨h1, fun j => h2 j (List.mem_finRange j)⟩
  · exact Or.inr ⟨j, h⟩

theorem Link_Cost_of_neighbor (info : Info_Config) (s : Char) (c : Int) (n : Fin MAX_NEIGHBORS)
    (hn : (n.val : Int) < info.no_of_neighbors) (hs : (info.neighbors n).dest = s)
    (hall : ∀ j : Fin MAX_NEIGHBORS, (j.val : Int) < info.no_of_neighbors →
      (info.neighbors j).dest = s → (info.neighbors j).dist = c) :
    Link_Cost info s = c := by
  rcases Link_Cost_cases info s with ⟨_, h2⟩ | ⟨j, hj, hd, h⟩
  · exact absurd hs (h2 n hn)
  · rw [h]
    exact hall j hj hd

/-! ## More entry-level facts -/

/-- Elements naming another destination do not act on an entry. -/
theorem relaxEntry_filter (s : Char) (c : Int) (els : List Element_Dist_Vector) :
    ∀ e : Routing_Table,
      relaxEntry s c els e =
        relaxEntry s c (els.filter (fun el => decide (e.dest = el.dest))) e := by
  induction els with
  | nil => intro e; rfl
  | cons hd tl ih =>
    intro e
    by_cases h : e.dest = hd.dest
    · rw [List.filter_cons_of_pos (by simpa using h), relaxEntry_cons, relaxEntry_cons, ih]
      rw [relaxOne_dest]
    · rw [List.filter_cons_of_neg (by simpa using h), relaxEntry_cons]
      have h1 : relaxOne s c e hd = e := by
        unfold relaxOne
        rw [if_neg (fun hh => h hh.1)]
      rw [h1]
      exact ih e

theorem filter_unique_index (p : Fin MAX_NEIGHBORS → Bool) (j : Fin MAX_NEIGHBORS)
    (hj : p j = true) (huniq : ∀ j2, p j2 = true → j2 = j) (l : List (Fin MAX_NEIGHBORS)) :
    l.Nodup → j ∈ l → l.filter p = [j] := by
  induction l with
  | nil => intro _ h; simp at h
  | cons a l ih =>
    intro hnd hmem
    rw [List.nodup_cons] at hnd
    by_cases ha : a = j
    · subst ha
      rw [List.filter_cons_of_pos hj]
      congr 1
      rw [List.filter_eq_nil_iff]
      intro x hx hpx
      exact hnd.1 (huniq x hpx ▸ hx)
    · have hpa : ¬ p a = true := fun h => ha (huniq a h)
      rw [List.filter_cons_of_neg hpa]
      rcases List.mem_cons.mp hmem with h | h
      · exact absurd h.symm ha
      · exact ih hnd.2 h

/-- When exactly one vector slot names destination `d`, the elements naming `d`
are that slot alone. -/
theorem filter_elements_once (dv : Dist_Vect) (d : Char) (j : Fin MAX_NEIGHBORS)
    (hj : (dv.element_Dist_Vector j).dest = d)
    (honce : ∀ j2, (dv.element_Dist_Vector j2).dest = d → j2 = j) :
    (elements dv).filter (fun el => decide (d = el.dest)) = [dv.element_Dist_Vector j] := by
  unfold elements
  rw [List.filter_map]
  rw [filter_unique_index _ j (by simp [hj]) (fun j2 h => honce j2 (by simpa [eq_comm] using h))
    _ (List.nodup_finRange _) (List.mem_finRange j)]
  rfl

theorem relaxEntry_once (dv : Dist_Vect) (c : Int) (e : Routing_Table) (j : Fin MAX_NEIGHBORS)
    (hj : (dv.element_Dist_Vector j).dest = e.dest)
    (honce : ∀ j2, (dv.element_Dist_Vector j2).dest = e.dest → j2 = j) :
    relaxEntry dv.sender c (elements dv) e = relaxOne dv.sender c e (dv.element_Dist_Vector j) := by
  rw [relaxEntry_filter, filter_elements_once dv e.dest j hj honce]
  rfl

/-- An invariant of single steps is an invariant of the whole pass over the vector. -/
theorem relaxEntry_invariant (P : Routing_Table → Prop) (s : Char) (c : Int)
    (els : List Element_Dist_Vector)
    (hstep : ∀ e, ∀ el ∈ els, P e → P (relaxOne s c e el)) :
    ∀ e, P e → P (relaxEntry s c els e) := by
  induction els with
  | nil => intro e h; exact h
  | cons hd tl ih =>
    intro e h
    rw [relaxEntry_cons]
    apply ih (fun e el hel => hstep e el (List.mem_cons_of_mem _ hel))
    exact hstep e hd (List.mem_cons_self _ _) h

theorem sender_ne_unknown (s : Char) (hs : s ∈ nodes) : s ≠ UNKNOWN_HOP := by
  simp only [nodes, List.mem_cons, List.mem_singleton, List.not_mem_nil, or_false] at hs
  rcases hs with rfl | rfl | rfl | rfl | rfl | rfl | rfl <;> decide

theorem Link_Cost_after_update (info : Info_Config) (dv : Dist_Vect) (s : Char) :
    Link_Cost (Update_Routing_Table info dv).1 s = Link_Cost info s := by
  have h1 : (Update_Routing_Table info dv).1.no_of_neighbors = info.no_of_neighbors :=
    (Update_frame info dv).2.1
  have h2 : (Update_Routing_Table info dv).1.neighbors = info.neighbors :=
    (Update_frame info dv).2.2.2
  unfold Link_Cost
  rw [h1, h2]

/-! ## Claims on `Update_Routing_Table` -/

/-- C4: for a table whose entries satisfy `next_hop == UNKNOWN_HOP` iff
`dist == MAX_DIST`, and a vector whose sender is one of the node symbols and which
names each destination at most once, `Update_Routing_Table` returns 1 if and only
if some routing-table entry differs in `dist` or `next_hop` after the call; the
return value is 0 or 1, and a return of 0 means the whole node state is unchanged. -/
theorem C4_return_value_tells_change (info : Info_Config) (dv : Dist_Vect)
    (hinv : ∀ k, (info.routing_table k).next_hop = UNKNOWN_HOP ↔
      (info.routing_table k).dist = MAX_DIST)
    (hs : dv.sender ∈ nodes)
    (huniq : ∀ j j2, (dv.element_Dist_Vector j).dest = (dv.element_Dist_Vector j2).dest → j = j2) :
    ((Update_Routing_Table info dv).2 = 1 ↔
      ∃ k, ((Update_Routing_Table info dv).1.routing_table k).dist ≠ (info.routing_table k).dist ∨
        ((Update_Routing_Table info dv).1.routing_table k).next_hop ≠
          (info.routing_table k).next_hop) ∧
    ((Update_Routing_Table info dv).2 = 0 ∨ (Update_Routing_Table info dv).2 = 1) ∧
    ((Update_Routing_Table info dv).2 = 0 →
      (Update_Routing_Table info dv).1.routing_table = info.routing_table ∧
      (Update_Routing_Table info dv).1.neighbors = info.neighbors ∧
      (Update_Routing_Table info dv).1.no_of_neighbors = info.no_of_neighbors ∧
      (Update_Routing_Table info dv).1.node_name = info.node_name ∧
      (Update_Routing_Table info dv).1.port_no = info.port_no) := by
  have hfr := Update_frame info dv
  refine ⟨⟨?_, ?_⟩, Update_flag_zero_or_one info dv, fun h0 =>
    ⟨Update_unchanged_of_flag_zero info dv h0, hfr.2.2.2, hfr.2.1, hfr.1, hfr.2.2.1⟩⟩
  · intro h1
    obtain ⟨k, hk⟩ := (Update_flag_eq_one_iff info dv).mp h1
    obtain ⟨j, hd, hi⟩ := (Fires_elements _ _ _).mp hk
    refine ⟨k, ?_⟩
    rw [Update_table, relaxEntry_once dv _ _ j hd.symm
      (fun j2 h2 => huniq j2 j (by rw [h2, hd]))]
    unfold relaxOne
    rw [if_pos ⟨hd, hi⟩]
    show (dv.element_Dist_Vector j).dist + Link_Cost info dv.sender ≠ (info.routing_table k).dist ∨
      dv.sender ≠ (info.routing_table k).next_hop
    rcases hi with ⟨hm, _⟩ | hlt
    · right
      rw [(hinv k).mpr hm]
      exact sender_ne_unknown _ hs
    · left
      omega
  · rintro ⟨k, hk⟩
    rcases Update_flag_zero_or_one info dv with h0 | h1
    · exfalso
      have := congrFun (Update_unchanged_of_flag_zero info dv h0) k
      rw [this] at hk
      rcases hk with hk | hk <;> exact hk rfl
    · exact h1

/-- Witness for C4 at `nodeA` and the vector from B. -/
theorem C4_return_value_tells_change_witness :
    ((Update_Routing_Table nodeA vectorB).2 = 1 ↔
      ∃ k, ((Update_Routing_Table nodeA vectorB).1.routing_table k).dist ≠
          (nodeA.routing_table k).dist ∨
        ((Update_Routing_Table nodeA vectorB).1.routing_table k).next_hop ≠
          (nodeA.routing_table k).next_hop) ∧
    (Update_Routing_Table nodeA vectorB).2 = 1 :=
  ⟨(C4_return_value_tells_change nodeA vectorB (by decide) (by decide) (by decide)).1, by decide⟩

/-- C5: when the table holds `{MAX_DIST, UNKNOWN_HOP}` for destination `d` (slot `i`),
and the vector comes from a neighbour `s` whose link cost is `c` and names `d` in
exactly one slot `j` with distance `x` where `x + c < MAX_DIST`, then
`Update_Routing_Table` sets the entry for `d` to `{x + c, s}` and returns 1. -/
theorem C5_learns_route_to_unreachable (info : Info_Config) (dv : Dist_Vect)
    (i j n : Fin MAX_NEIGHBORS) (d s : Char) (x c : Int)
    (hentry : info.routing_table i = ⟨d, MAX_DIST, UNKNOWN_HOP⟩)
    (hsender : dv.sender = s)
    (hn : (n.val : Int) < info.no_of_neighbors)
    (hns : (info.neighbors n).dest = s)
    (hcost : ∀ m : Fin MAX_NEIGHBORS, (m.val : Int) < info.no_of_neighbors →
      (info.neighbors m).dest = s → (info.neighbors m).dist = c)
    (hel : dv.element_Dist_Vector j = ⟨d, x⟩)
    (honce : ∀ j2, (dv.element_Dist_Vector j2).dest = d → j2 = j)
    (hx : x + c < MAX_DIST) :
    (Update_Routing_Table info dv).1.routing_table i = ⟨d, x + c, s⟩ ∧
    (Update_Routing_Table info dv).2 = 1 := by
  have hc : Link_Cost info dv.sender = c := by
    rw [hsender]
    exact Link_Cost_of_neighbor info s c n hn hns hcost
  have hd : (info.routing_table i).dest = (dv.element_Dist_Vector j).dest := by
    rw [hentry, hel]
  have himp : Improves c (info.routing_table i) (dv.element_Dist_Vector j) := by
    right
    rw [hentry, hel]
    exact hx
  constructor
  · rw [Update_table, hc, relaxEntry_once dv c _ j hd.symm
      (fun j2 h2 => honce j2 (by rw [h2, hentry]))]
    unfold relaxOne
    rw [if_pos ⟨hd, himp⟩, hentry, hel, hsender]
  · rw [Update_flag_eq_one_iff, hc]
    exact ⟨i, (Fires_elements _ _ _).mpr ⟨j, hd, himp⟩⟩

/-- Witness for C5: node A with neighbour B at cost 1 and `table[C] = {1000, 'X'}`
receives B's vector with `entries[C] = 1`; then `table[C] = {2, 'B'}` and the
return value is 1. -/
theorem C5_learns_route_to_unreachable_witness :
    nodeA.routing_table 1 = ⟨'C', MAX_DIST, UNKNOWN_HOP⟩ ∧
    vectorB.element_Dist_Vector 1 = ⟨'C', 1⟩ ∧
    (Update_Routing_Table nodeA vectorB).1.routing_table 1 = ⟨'C', 1 + 1, 'B'⟩ ∧
    (Update_Routing_Table nodeA vectorB).2 = 1 :=
  ⟨by decide, by decide,
    C5_learns_route_to_unreachable nodeA vectorB 1 1 0 'C' 'B' 1 1 (by decide) (by decide)
      (by decide) (by decide) (by decide) (by decide) (by decide) (by decide)⟩

/-- C2, as stated, fails (even when the sending neighbour is a node symbol):
`nodeA5` has a valid table and the neighbour B at cost 5; B's vector reports C at
distance 999, within `0..MAX_DIST`.  The update stores `999 + 5 = 1004 > MAX_DIST`
for C: the candidate is not saturated. -/
theorem C2_validity_counterexample :
    ¬ ∀ (info : Info_Config) (dv : Dist_Vect),
        (∀ k, 0 < (info.routing_table k).dist ∧ (info.routing_table k).dist ≤ MAX_DIST ∧
          ((info.routing_table k).next_hop = UNKNOWN_HOP ↔
            (info.routing_table k).dist = MAX_DIST)) →
        (∃ n : Fin MAX_NEIGHBORS, (n.val : Int) < info.no_of_neighbors ∧
          (info.neighbors n).dest = dv.sender) →
        (∀ m : Fin MAX_NEIGHBORS, (m.val : Int) < info.no_of_neighbors →
          (info.neighbors m).dest = dv.sender →
          1 ≤ (info.neighbors m).dist ∧ (info.neighbors m).dist ≤ MAX_DIST - 1) →
        (∀ j, 0 ≤ (dv.element_Dist_Vector j).dist ∧ (dv.element_Dist_Vector j).dist ≤ MAX_DIST) →
        dv.sender ∈ nodes →
        ∀ k, 0 ≤ ((Update_Routing_Table info dv).1.routing_table k).dist ∧
          ((Update_Routing_Table info dv).1.routing_table k).dist ≤ MAX_DIST ∧
          (((Update_Routing_Table info dv).1.routing_table k).next_hop = UNKNOWN_HOP ↔
            ((Update_Routing_Table info dv).1.routing_table k).dist = MAX_DIST) := by
  intro h
  have h1 :=
    (h nodeA5 vectorB999 (by decide) (by decide) (by decide) (by decide) (by decide) 1).2.1
  revert h1
  decide

/-- C2, amended: entry validity is preserved when, in addition, every reported
distance is either `MAX_DIST` or stays below `MAX_DIST` after the link cost is added
(the code adds the link cost without saturating).  The sending neighbour is a node
symbol. -/
theorem C2_validity_preserved_below_max (info : Info_Config) (dv : Dist_Vect)
    (htab : ∀ k, 0 < (info.routing_table k).dist ∧ (info.routing_table k).dist ≤ MAX_DIST ∧
      ((info.routing_table k).next_hop = UNKNOWN_HOP ↔ (info.routing_table k).dist = MAX_DIST))
    (hnei : ∃ n : Fin MAX_NEIGHBORS, (n.val : Int) < info.no_of_neighbors ∧
      (info.neighbors n).dest = dv.sender)
    (hcost : ∀ m : Fin MAX_NEIGHBORS, (m.val : Int) < info.no_of_neighbors →
      (info.neighbors m).dest = dv.sender →
      1 ≤ (info.neighbors m).dist ∧ (info.neighbors m).dist ≤ MAX_DIST - 1)
    (hvec : ∀ j, 0 ≤ (dv.element_Dist_Vector j).dist ∧ (dv.element_Dist_Vector j).dist ≤ MAX_DIST)
    (hs : dv.sender ∈ nodes)
    (hbelow : ∀ j, (dv.element_Dist_Vector j).dist = MAX_DIST ∨
      (dv.element_Dist_Vector j).dist + Link_Cost info dv.sender < MAX_DIST) :
    ∀ k, 0 ≤ ((Update_Routing_Table info dv).1.routing_table k).dist ∧
      ((Update_Routing_Table info dv).1.routing_table k).dist ≤ MAX_DIST ∧
      (((Update_Routing_Table info dv).1.routing_table k).next_hop = UNKNOWN_HOP ↔
        ((Update_Routing_Table info dv).1.routing_table k).dist = MAX_DIST) := by
  intro k
  have hc : 1 ≤ Link_Cost info dv.sender := by
    rcases Link_Cost_cases info dv.sender with ⟨_, h2⟩ | ⟨m, hm, hd, h⟩
    · obtain ⟨n, hn, hns⟩ := hnei
      exact absurd hns (h2 n hn)
    · rw [h]
      exact (hcost m hm hd).1
  rw [Update_table]
  apply relaxEntry_invariant
    (fun e => 0 ≤ e.dist ∧ e.dist ≤ MAX_DIST ∧ (e.next_hop = UNKNOWN_HOP ↔ e.dist = MAX_DIST))
  · intro e el hel he
    obtain ⟨j, rfl⟩ := (mem_elements dv el).mp hel
    unfold relaxOne
    split
    · rename_i hfire
      obtain ⟨_, himp⟩ := hfire
      show 0 ≤ (dv.element_Dist_Vector j).dist + Link_Cost info dv.sender ∧
        (dv.element_Dist_Vector j).dist + Link_Cost info dv.sender ≤ MAX_DIST ∧
        (dv.sender = UNKNOWN_HOP ↔
          (dv.element_Dist_Vector j).dist + Link_Cost info dv.sender = MAX_DIST)
      have hv := hvec j
      rcases hbelow j with hmax | hlt
      · exfalso
        rcases himp with ⟨_, h2⟩ | h2
        · exact h2 hmax
        · have := he.2.1
          omega
      · refine ⟨by omega, by omega, ?_⟩
        constructor
        · intro h
          exact absurd h (sender_ne_unknown _ hs)
        · intro h
          omega
    · exact he
  · have := htab k
    exact ⟨by omega, this.2.1, this.2.2⟩

/-- Witness for C2 (amended) at `nodeA` and the vector from B. -/
theorem C2_validity_preserved_below_max_witness :
    0 ≤ ((Update_Routing_Table nodeA vectorB).1.routing_table 1).dist ∧
      ((Update_Routing_Table nodeA vectorB).1.routing_table 1).dist ≤ MAX_DIST ∧
      (((Update_Routing_Table nodeA vectorB).1.routing_table 1).next_hop = UNKNOWN_HOP ↔
        ((Update_Routing_Table nodeA vectorB).1.routing_table 1).dist = MAX_DIST) :=
  C2_validity_preserved_below_max nodeA vectorB (by decide) (by decide) (by decide) (by decide)
    (by decide) (by decide) 1

/-- C3, as stated, fails in both of its parts.  Return value: `nodeA` (neighbour B at
cost 1, C unreachable) receives B's vector reporting C at 999; the first call stores
`{1000, 'B'}` for C, and the second call with the same vector finds
`dist == MAX_DIST` with a report other than `MAX_DIST`, writes the same values again
and returns 1.  Table: when the vector names C twice, with 1000 and then 2000, the
first call stores 2001 for C and the second call lowers it to 1001. -/
theorem C3_idempotence_counterexample :
    (¬ ∀ (info : Info_Config) (dv : Dist_Vect),
        (Update_Routing_Table (Update_Routing_Table info dv).1 dv).2 = 0) ∧
    (¬ ∀ (info : Info_Config) (dv : Dist_Vect) (k : Fin MAX_NEIGHBORS),
        (Update_Routing_Table (Update_Routing_Table info dv).1 dv).1.routing_table k =
          (Update_Routing_Table info dv).1.routing_table k) := by
  constructor
  · intro h
    have h1 := h nodeA vectorB999
    revert h1
    decide
  · intro h
    have h1 := h nodeA vectorBTwice 1
    revert h1
    decide

/-- C3, amended: for every node state and every vector that names each destination
at most once, applying `Update_Routing_Table` a second time with the same vector
leaves the table identical to the table after the first application; the second
application returns 0 provided no reported distance `x` other than `MAX_DIST` has
`x + link cost == MAX_DIST`. -/
theorem C3_second_application_keeps_table (info : Info_Config) (dv : Dist_Vect)
    (huniq : ∀ j j2, (dv.element_Dist_Vector j).dest = (dv.element_Dist_Vector j2).dest → j = j2) :
    (∀ k, (Update_Routing_Table (Update_Routing_Table info dv).1 dv).1.routing_table k =
      (Update_Routing_Table info dv).1.routing_table k) ∧
    ((∀ j, (dv.element_Dist_Vector j).dist = MAX_DIST ∨
        (dv.element_Dist_Vector j).dist + Link_Cost info dv.sender ≠ MAX_DIST) →
      (Update_Routing_Table (Update_Routing_Table info dv).1 dv).2 = 0) := by
  have key : ∀ k, (∃ j, (dv.element_Dist_Vector j).dest = (info.routing_table k).dest ∧
        (Update_Routing_Table info dv).1.routing_table k =
          relaxOne dv.sender (Link_Cost info dv.sender) (info.routing_table k)
            (dv.element_Dist_Vector j) ∧
        ∀ e : Routing_Table, e.dest = (info.routing_table k).dest →
          relaxEntry dv.sender (Link_Cost info dv.sender) (elements dv) e =
            relaxOne dv.sender (Link_Cost info dv.sender) e (dv.element_Dist_Vector j)) ∨
      ((∀ j, (dv.element_Dist_Vector j).dest ≠ (info.routing_table k).dest) ∧
        (Update_Routing_Table info dv).1.routing_table k = info.routing_table k) := by
    intro k
    by_cases hex : ∃ j, (dv.element_Dist_Vector j).dest = (info.routing_table k).dest
    · obtain ⟨j, hj⟩ := hex
      refine Or.inl ⟨j, hj, ?_, ?_⟩
      · rw [Update_table]
        exact relaxEntry_once dv _ _ j hj (fun j2 h2 => huniq j2 j (by rw [h2, hj]))
      · intro e he
        exact relaxEntry_once dv _ _ j (by rw [hj, he])
          (fun j2 h2 => huniq j2 j (by rw [h2, he, hj]))
    · push_neg at hex
      refine Or.inr ⟨hex, ?_⟩
      rw [Update_table]
      apply relaxEntry_of_not_Fires
      rw [Fires_elements]
      rintro ⟨j, hd, _⟩
      exact hex j hd.symm
  constructor
  · intro k
    rw [Update_table (Update_Routing_Table info dv).1 dv k, Link_Cost_after_update]
    rcases key k with ⟨j, hj, h1, h2⟩ | ⟨hno, h1⟩
    · rw [h2 _ (by rw [h1, relaxOne_dest]), h1]
      unfold relaxOne
      by_cases hf : (info.routing_table k).dest = (dv.element_Dist_Vector j).dest ∧
          Improves (Link_Cost info dv.sender) (info.routing_table k) (dv.element_Dist_Vector j)
      · simp only [if_pos hf]
        split <;> rfl
      · simp only [if_neg hf]
    · rw [h1]
      apply relaxEntry_of_not_Fires
      rw [Fires_elements]
      rintro ⟨j, hd, _⟩
      exact hno j hd.symm
  · intro hne
    rw [Update_flag_eq_zero_iff]
    intro k
    rw [Link_Cost_after_update, Fires_elements]
    rintro ⟨j2, hd2, himp2⟩
    rcases key k with ⟨j, hj, h1, _⟩ | ⟨hno, h1⟩
    · have hjj : j2 = j := by
        apply huniq
        rw [← hd2, h1, relaxOne_dest, hj]
      subst hjj
      rw [h1] at himp2
      unfold relaxOne at himp2
      by_cases hf : (info.routing_table k).dest = (dv.element_Dist_Vector j2).dest ∧
          Improves (Link_Cost info dv.sender) (info.routing_table k) (dv.element_Dist_Vector j2)
      · rw [if_pos hf] at himp2
        rcases himp2 with ⟨h3, h4⟩ | h3
        · rcases hne j2 with h5 | h5
          · exact h4 h5
          · exact h5 h3
        · exact lt_irrefl _ h3
      · rw [if_neg hf] at himp2
        exact hf ⟨hj.symm, himp2⟩
    · rw [h1] at hd2
      exact hno j2 hd2.symm

/-- Witness for C3 (amended) at `nodeA` and the vector from B. -/
theorem C3_second_application_keeps_table_witness :
    (Update_Routing_Table (Update_Routing_Table nodeA vectorB).1 vectorB).1.routing_table 1 =
      (Update_Routing_Table nodeA vectorB).1.routing_table 1 ∧
    (Update_Routing_Table (Update_Routing_Table nodeA vectorB).1 vectorB).2 = 0 :=
  ⟨(C3_second_application_keeps_table nodeA vectorB (by decide)).1 1,
    (C3_second_application_keeps_table nodeA vectorB (by decide)).2 (by decide)⟩

/-! ## `Build_Distance_Vector` and the exchange loop -/

theorem Build_fold (info : Info_Config) (js : List (Fin MAX_NEIGHBORS)) :
    ∀ dv : Dist_Vect,
      let r := js.foldl
        (fun (dv : Dist_Vect) j =>
          { dv with element_Dist_Vector := (setSlot dv.element_Dist_Vector j
              ⟨(info.routing_table j).dest, (info.routing_table j).dist⟩) }) dv
      r.sender = dv.sender ∧ r.no_of_neighbors = dv.no_of_neighbors ∧
      ∀ k, r.element_Dist_Vector k =
        if k ∈ js then ⟨(info.routing_table k).dest, (info.routing_table k).dist⟩
        else dv.element_Dist_Vector k := by
  induction js with
  | nil => intro dv; simp
  | cons j js ih =>
    intro dv
    simp only [List.foldl_cons]
    obtain ⟨h1, h2, h3⟩ := ih { dv with element_Dist_Vector := (setSlot dv.element_Dist_Vector j
      ⟨(info.routing_table j).dest, (info.routing_table j).dist⟩) }
    refine ⟨h1, h2, ?_⟩
    intro k
    rw [h3 k]
    by_cases hk : k ∈ js
    · rw [if_pos hk, if_pos (List.mem_cons_of_mem _ hk)]
    · rw [if_neg hk]
      by_cases hkj : k = j
      · subst hkj
        rw [if_pos (List.mem_cons_self _ _)]
        exact setSlot_same _ _ _
      · rw [if_neg (by simp [hk, hkj])]
        exact setSlot_other _ _ _ _ hkj

theorem Build_spec (d : Dist_Vect) (info : Info_Config) :
    (Build_Distance_Vector d info).1.sender = info.node_name ∧
    (Build_Distance_Vector d info).1.no_of_neighbors = info.no_of_neighbors ∧
    (∀ j, (Build_Distance_Vector d info).1.element_Dist_Vector j =
      ⟨(info.routing_table j).dest, (info.routing_table j).dist⟩) ∧
    (Build_Distance_Vector d info).2 = info := by
  have h := Build_fold info (List.finRange MAX_NEIGHBORS)
    { d with sender := info.node_name, no_of_neighbors := info.no_of_neighbors }
  simp only [Build_Distance_Vector]
  refine ⟨h.1, h.2.1, ?_, trivial⟩
  intro j
  have := h.2.2 j
  rw [if_pos (List.mem_finRange j)] at this
  exact this

theorem Dist_Vect_ext (a b : Dist_Vect) (h1 : a.sender = b.sender)
    (h2 : a.no_of_neighbors = b.no_of_neighbors)
    (h3 : ∀ j, a.element_Dist_Vector j = b.element_Dist_Vector j) : a = b := by
  cases a
  cases b
  simp only [Dist_Vect.mk.injEq]
  exact ⟨h1, h2, funext h3⟩

/-- The built vector does not depend on what the output object held before. -/
theorem Build_independent (d1 d2 : Dist_Vect) (info : Info_Config) :
    (Build_Distance_Vector d1 info).1 = (Build_Distance_Vector d2 info).1 := by
  obtain ⟨a1, a2, a3, _⟩ := Build_spec d1 info
  obtain ⟨b1, b2, b3, _⟩ := Build_spec d2 info
  apply Dist_Vect_ext
  · rw [a1, b1]
  · rw [a2, b2]
  · intro j
    rw [a3, b3]

/-- The built vector depends only on the name, the neighbour count and the table. -/
theorem Build_congr (d : Dist_Vect) (info1 info2 : Info_Config)
    (h1 : info1.node_name = info2.node_name)
    (h2 : info1.no_of_neighbors = info2.no_of_neighbors)
    (h3 : info1.routing_table = info2.routing_table) :
    (Build_Distance_Vector d info1).1 = (Build_Distance_Vector d info2).1 := by
  obtain ⟨a1, a2, a3, _⟩ := Build_spec d info1
  obtain ⟨b1, b2, b3, _⟩ := Build_spec d info2
  apply Dist_Vect_ext
  · rw [a1, b1, h1]
  · rw [a2, b2, h2]
  · intro j
    rw [a3, b3, h3]

/-- C8: for every node state (and whatever the output object held before),
`Build_Distance_Vector` produces a vector whose sender is the node's own name and
whose `j`-th element, for every slot `j`, is `(routing_table[j].dest,
routing_table[j].dist)` in table order; an entry with `dist == MAX_DIST` is included
with distance `MAX_DIST`; the node state is not modified. -/
theorem C8_build_encodes_table (d : Dist_Vect) (info : Info_Config) :
    (Build_Distance_Vector d info).1.sender = info.node_name ∧
    (∀ j : Fin MAX_NEIGHBORS,
      (Build_Distance_Vector d info).1.element_Dist_Vector j =
        ⟨(info.routing_table j).dest, (info.routing_table j).dist⟩) ∧
    (∀ j : Fin MAX_NEIGHBORS, (info.routing_table j).dist = MAX_DIST →
      ((Build_Distance_Vector d info).1.element_Dist_Vector j).dest = (info.routing_table j).dest ∧
      ((Build_Distance_Vector d info).1.element_Dist_Vector j).dist = MAX_DIST) ∧
    (Build_Distance_Vector d info).2 = info := by
  obtain ⟨h1, _, h3, h4⟩ := Build_spec d info
  refine ⟨h1, h3, ?_, h4⟩
  intro j hj
  rw [h3 j]
  exact ⟨rfl, hj⟩

theorem Main_Step_pos (st : Main_State) (rx : Dist_Vect)
    (h : (Update_Routing_Table st.info_config rx).2 = 1) :
    Main_Step st (Loop_Event.vector_received rx) =
      ({ info_config := (Build_Distance_Vector st.send_dist_vect
            (Update_Routing_Table st.info_config rx).1).2,
         send_dist_vect := (Build_Distance_Vector st.send_dist_vect
            (Update_Routing_Table st.info_config rx).1).1 },
       some (Build_Distance_Vector st.send_dist_vect
            (Update_Routing_Table st.info_config rx).1).1) := by
  unfold Main_Step
  exact if_pos h

theorem Main_Step_neg (st : Main_State) (rx : Dist_Vect)
    (h : ¬ (Update_Routing_Table st.info_config rx).2 = 1) :
    Main_Step st (Loop_Event.vector_received rx) =
      ({ info_config := (Update_Routing_Table st.info_config rx).1,
         send_dist_vect := st.send_dist_vect }, none) := by
  unfold Main_Step
  exact if_neg h

theorem Main_Step_deadline (st : Main_State) :
    Main_Step st Loop_Event.deadline_elapsed = (st, some st.send_dist_vect) := by
  unfold Main_Step
  rfl

/-- One loop event keeps `send_dist_vect` equal to the encoding of the table. -/
theorem Main_Step_invariant (s : Main_State)
    (hs : ∀ d, s.send_dist_vect = (Build_Distance_Vector d s.info_config).1)
    (ev : Loop_Event) (d : Dist_Vect) :
    (Main_Step s ev).1.send_dist_vect =
      (Build_Distance_Vector d (Main_Step s ev).1.info_config).1 := by
  cases ev with
  | deadline_elapsed =>
    rw [Main_Step_deadline]
    exact hs d
  | vector_received rx =>
    by_cases hflag : (Update_Routing_Table s.info_config rx).2 = 1
    · rw [Main_Step_pos s rx hflag]
      show (Build_Distance_Vector s.send_dist_vect (Update_Routing_Table s.info_config rx).1).1 =
        (Build_Distance_Vector d
          (Build_Distance_Vector s.send_dist_vect (Update_Routing_Table s.info_config rx).1).2).1
      rw [(Build_spec _ _).2.2.2]
      exact Build_independent _ _ _
    · rw [Main_Step_neg s rx hflag]
      have h0 : (Update_Routing_Table s.info_config rx).2 = 0 :=
        (Update_flag_zero_or_one s.info_config rx).resolve_right hflag
      show s.send_dist_vect = (Build_Distance_Vector d (Update_Routing_Table s.info_config rx).1).1
      rw [hs d]
      have hfr := Update_frame s.info_config rx
      exact (Build_congr d _ _ hfr.1 hfr.2.1
        (Update_unchanged_of_flag_zero s.info_config rx h0)).symm

theorem Main_Reachable_invariant (info0 : Info_Config) (d0 : Dist_Vect) (st : Main_State)
    (hreach : Main_Reachable info0 d0 st) :
    ∀ d, st.send_dist_vect = (Build_Distance_Vector d st.info_config).1 := by
  induction hreach with
  | init =>
    intro d
    show (Build_Distance_Vector d0 info0).1 =
      (Build_Distance_Vector d (Build_Distance_Vector d0 info0).2).1
    rw [(Build_spec _ _).2.2.2]
    exact Build_independent _ _ _
  | step s ev _ ih => exact Main_Step_invariant s ih ev

/-- C10: in every state the loop of `main` reaches at its waiting point,
`send_dist_vect` is the result of `Build_Distance_Vector` on the current node
state.  Hence an elapsed deadline leaves the state as it is and sends the encoding
of the current table, the vector sent after a received vector is the encoding of
the table at that moment, and a received vector is followed by a rebuild and a
send exactly when `Update_Routing_Table` returned 1 (no send otherwise).  The
first send, before the loop, is the encoding of the populated table. -/
theorem C10_loop_broadcasts_current_vector (info0 : Info_Config) (d0 : Dist_Vect)
    (st : Main_State) (hreach : Main_Reachable info0 d0 st) :
    (∀ d, st.send_dist_vect = (Build_Distance_Vector d st.info_config).1) ∧
    (∀ d, Main_Step st Loop_Event.deadline_elapsed =
      (st, some (Build_Distance_Vector d st.info_config).1)) ∧
    (∀ ev v d, (Main_Step st ev).2 = some v →
      v = (Build_Distance_Vector d (Main_Step st ev).1.info_config).1) ∧
    (∀ rx, ((Main_Step st (Loop_Event.vector_received rx)).2.isSome = true ↔
      (Update_Routing_Table st.info_config rx).2 = 1) ∧
      ((Update_Routing_Table st.info_config rx).2 = 1 →
        (Main_Step st (Loop_Event.vector_received rx)).2 =
          some (Build_Distance_Vector st.send_dist_vect
            (Update_Routing_Table st.info_config rx).1).1) ∧
      (¬ (Update_Routing_Table st.info_config rx).2 = 1 →
        (Main_Step st (Loop_Event.vector_received rx)).2 = none)) ∧
    (∀ d, (Main_Init info0 d0).2 = (Build_Distance_Vector d info0).1) := by
  have inv := Main_Reachable_invariant info0 d0 st hreach
  refine ⟨inv, ?_, ?_, ?_, ?_⟩
  · intro d
    rw [Main_Step_deadline, ← inv d]
  · intro ev v d hv
    have hst := Main_Step_invariant st inv ev d
    cases ev with
    | deadline_elapsed =>
      rw [Main_Step_deadline] at hv hst ⊢
      rw [← Option.some.inj hv]
      exact hst
    | vector_received rx =>
      by_cases hflag : (Update_Routing_Table st.info_config rx).2 = 1
      · rw [Main_Step_pos st rx hflag] at hv hst ⊢
        rw [← Option.some.inj hv]
        exact hst
      · rw [Main_Step_neg st rx hflag] at hv
        exact absurd hv (by intro h; cases h)
  · intro rx
    by_cases hflag : (Update_Routing_Table st.info_config rx).2 = 1
    · rw [Main_Step_pos st rx hflag]
      exact ⟨⟨fun _ => hflag, fun _ => rfl⟩, fun _ => rfl, fun h => absurd hflag h⟩
    · rw [Main_Step_neg st rx hflag]
      refine ⟨⟨fun h => ?_, fun h => absurd h hflag⟩, fun h => absurd h hflag, fun _ => rfl⟩
      exact absurd h (by simp)
  · intro d
    show (Build_Distance_Vector d0 info0).1 = (Build_Distance_Vector d info0).1
    exact Build_independent _ _ _

/-- Witness for C10: the state of `nodeA` after its first build and one received
vector from B; there `send_dist_vect` is the encoding of the table, and an elapsed
deadline sends it. -/
theorem C10_loop_broadcasts_current_vector_witness :
    (Main_Step (Main_Init nodeA vectorC).1 (Loop_Event.vector_received vectorB)).1.send_dist_vect =
      (Build_Distance_Vector vectorC
        (Main_Step (Main_Init nodeA vectorC).1
          (Loop_Event.vector_received vectorB)).1.info_config).1 ∧
    Main_Step (Main_Step (Main_Init nodeA vectorC).1 (Loop_Event.vector_received vectorB)).1
        Loop_Event.deadline_elapsed =
      ((Main_Step (Main_Init nodeA vectorC).1 (Loop_Event.vector_received vectorB)).1,
        some (Build_Distance_Vector vectorC
          (Main_Step (Main_Init nodeA vectorC).1
            (Loop_Event.vector_received vectorB)).1.info_config).1) :=
  ⟨(C10_loop_broadcasts_current_vector nodeA vectorC _
      (Main_Reachable.step _ (Loop_Event.vector_received vectorB) Main_Reachable.init)).1 vectorC,
    (C10_loop_broadcasts_current_vector nodeA vectorC _
      (Main_Reachable.step _ (Loop_Event.vector_received vectorB) Main_Reachable.init)).2.1
        vectorC⟩

/-! ## `Populate_From_Config` -/

theorem Populate_Slots_skip (r : Config_Record) (n : Char) (rest : List Char) (j : Nat)
    (info : Info_Config) (cnt : Nat) (hj : j < MAX_NEIGHBORS) (hn : n = info.node_name) :
    Populate_Slots r (n :: rest) j (info, cnt) = Populate_Slots r rest j (info, cnt) := by
  rw [Populate_Slots, dif_pos hj, if_pos hn]

theorem Populate_Slots_done (r : Config_Record) (ns : List Char) (j : Nat)
    (st : Info_Config × Nat) (hj : ¬ j < MAX_NEIGHBORS) :
    Populate_Slots r ns j st = some st := by
  cases ns with
  | nil => rw [Populate_Slots, if_neg hj]
  | cons n rest =>
    obtain ⟨info, cnt⟩ := st
    rw [Populate_Slots, dif_neg hj]

theorem Populate_Slots_link (r : Config_Record) (n : Char) (rest : List Char) (j : Nat)
    (info : Info_Config) (cnt : Nat) (hj : j < MAX_NEIGHBORS) (hn : n ≠ info.node_name)
    (hv : n = r.value1) (hd : 0 < r.value2 ∧ r.value2 < MAX_DIST) (hc : cnt < MAX_NEIGHBORS) :
    Populate_Slots r (n :: rest) j (info, cnt) =
      Populate_Slots r rest (j + 1)
        ({ info with
            neighbors := (setSlot info.neighbors ⟨cnt, hc⟩ (To_Neighbor r))
            routing_table := (setSlot info.routing_table ⟨j, hj⟩
              (Slot_After r n (info.routing_table ⟨j, hj⟩))) }, cnt + 1) := by
  rw [Populate_Slots, dif_pos hj, if_neg hn, if_pos hv, if_pos hd, dif_pos hc]
  simp only [Slot_After, if_pos hv, if_pos hd, To_Neighbor]

theorem Populate_Slots_nolink (r : Config_Record) (n : Char) (rest : List Char) (j : Nat)
    (info : Info_Config) (cnt : Nat) (hj : j < MAX_NEIGHBORS) (hn : n ≠ info.node_name)
    (hv : ¬ (n = r.value1 ∧ 0 < r.value2 ∧ r.value2 < MAX_DIST)) :
    Populate_Slots r (n :: rest) j (info, cnt) =
      Populate_Slots r rest (j + 1)
        ({ info with
            routing_table := (setSlot info.routing_table ⟨j, hj⟩
              (Slot_After r n (info.routing_table ⟨j, hj⟩))) }, cnt) := by
  rw [Populate_Slots, dif_pos hj, if_neg hn]
  by_cases h1 : n = r.value1
  · have hd : ¬ (0 < r.value2 ∧ r.value2 < MAX_DIST) := fun h => hv ⟨h1, h⟩
    rw [if_pos h1, if_neg hd]
    simp only [Slot_After, if_pos h1, if_neg hd]
  · rw [if_neg h1]
    simp only [Slot_After, if_neg h1]

theorem Other_Nodes_cons_self (self : Char) (rest : List Char) :
    Other_Nodes self (self :: rest) = Other_Nodes self rest := by
  simp [Other_Nodes]

theorem Other_Nodes_cons_other (self n : Char) (rest : List Char) (h : n ≠ self) :
    Other_Nodes self (n :: rest) = n :: Other_Nodes self rest := by
  simp [Other_Nodes, h]

theorem mem_Other_Nodes (self n : Char) (ns : List Char) :
    n ∈ Other_Nodes self ns ↔ n ∈ ns ∧ n ≠ self := by
  simp [Other_Nodes]

/-- The slot loop for one record, in closed form.  Slots below `j` keep their
content; the slot of each remaining node other than `self` is rewritten by
`Slot_After`; a link record appends one neighbour. -/
theorem Populate_Slots_spec (r : Config_Record) (ns : List Char) :
    ∀ (j : Nat) (info : Info_Config) (cnt : Nat), ns.Nodup →
      j + (Other_Nodes info.node_name ns).length = MAX_NEIGHBORS →
      ((0 < r.value2 ∧ r.value2 < MAX_DIST) → r.value1 ∈ Other_Nodes info.node_name ns →
        cnt < MAX_NEIGHBORS) →
      ∃ (info2 : Info_Config) (cnt2 : Nat),
        Populate_Slots r ns j (info, cnt) = some (info2, cnt2) ∧
        info2.node_name = info.node_name ∧ info2.port_no = info.port_no ∧
        info2.no_of_neighbors = info.no_of_neighbors ∧
        (∀ k : Fin MAX_NEIGHBORS, k.val < j → info2.routing_table k = info.routing_table k) ∧
        (∀ (k : Fin MAX_NEIGHBORS) (n : Char), j ≤ k.val →
          (Other_Nodes info.node_name ns)[k.val - j]? = some n →
          info2.routing_table k = Slot_After r n (info.routing_table k)) ∧
        (cnt2 = if r.value1 ∈ Other_Nodes info.node_name ns ∧ 0 < r.value2 ∧ r.value2 < MAX_DIST
          then cnt + 1 else cnt) ∧
        (∀ k : Fin MAX_NEIGHBORS, info2.neighbors k =
          if (r.value1 ∈ Other_Nodes info.node_name ns ∧ 0 < r.value2 ∧ r.value2 < MAX_DIST) ∧
              k.val = cnt
          then To_Neighbor r else info.neighbors k) := by
  induction ns with
  | nil =>
    intro j info cnt _ hlen _
    have hj : ¬ j < MAX_NEIGHBORS := by
      simp only [Other_Nodes, List.filter_nil, List.length_nil, Nat.add_zero] at hlen
      omega
    refine ⟨info, cnt, Populate_Slots_done r [] j (info, cnt) hj, rfl, rfl, rfl,
      fun _ _ => rfl, ?_, ?_, ?_⟩
    · intro k n _ h
      simp [Other_Nodes] at h
    · simp [Other_Nodes]
    · intro k
      simp [Other_Nodes]
  | cons n rest ih =>
    intro j info cnt hnd hlen hcap
    rw [List.nodup_cons] at hnd
    by_cases hj : j < MAX_NEIGHBORS
    · by_cases hn : n = info.node_name
      · rw [Populate_Slots_skip r n rest j info cnt hj hn]
        subst hn
        rw [Other_Nodes_cons_self] at hlen hcap ⊢
        exact ih j info cnt hnd.2 hlen hcap
      · have hO : Other_Nodes info.node_name (n :: rest) = n :: Other_Nodes info.node_name rest :=
          Other_Nodes_cons_other _ _ _ hn
        rw [hO] at hlen hcap ⊢
        rw [List.length_cons] at hlen
        have hnot : n ∉ Other_Nodes info.node_name rest :=
          fun h => hnd.1 ((mem_Other_Nodes _ _ _).mp h).1
        by_cases hv : n = r.value1 ∧ 0 < r.value2 ∧ r.value2 < MAX_DIST
        · obtain ⟨hv1, hv2⟩ := hv
          have hc : cnt < MAX_NEIGHBORS := hcap hv2 (by rw [← hv1]; exact List.mem_cons_self _ _)
          rw [Populate_Slots_link r n rest j info cnt hj hn hv1 hv2 hc]
          obtain ⟨info2, cnt2, h1, h2, h3, h4, h5, h6, h7, h8⟩ := ih (j + 1)
            { info with
              neighbors := (setSlot info.neighbors ⟨cnt, hc⟩ (To_Neighbor r))
              routing_table := (setSlot info.routing_table ⟨j, hj⟩
                (Slot_After r n (info.routing_table ⟨j, hj⟩))) } (cnt + 1) hnd.2
            (by show j + 1 + (Other_Nodes info.node_name rest).length = MAX_NEIGHBORS; omega)
            (fun _ h => absurd (hv1 ▸ h) hnot)
          have hmem : ¬ (r.value1 ∈ Other_Nodes info.node_name rest ∧
              0 < r.value2 ∧ r.value2 < MAX_DIST) := fun h => hnot (hv1 ▸ h.1)
          have hmem2 : r.value1 ∈ n :: Other_Nodes info.node_name rest ∧
              0 < r.value2 ∧ r.value2 < MAX_DIST :=
            ⟨by rw [← hv1]; exact List.mem_cons_self _ _, hv2⟩
          refine ⟨info2, cnt2, h1, h2, h3, h4, ?_, ?_, ?_, ?_⟩
          · intro k hk
            rw [h5 k (by omega)]
            exact setSlot_other _ _ _ _ (fun h => by rw [h] at hk; exact absurd hk (lt_irrefl _))
          · intro k m hk hm
            by_cases hkj : k.val = j
            · have hk2 : k = ⟨j, hj⟩ := Fin.ext hkj
              rw [hkj, Nat.sub_self, List.getElem?_cons_zero] at hm
              rw [h5 k (by omega), hk2, ← Option.some.inj hm]
              exact setSlot_same _ _ _
            · have h9 : k.val - j = (k.val - (j + 1)) + 1 := by omega
              rw [h9, List.getElem?_cons_succ] at hm
              rw [h6 k m (by omega) hm]
              congr 1
              exact setSlot_other _ _ _ _ (fun h => hkj (by rw [h]))
          · rw [h7]
            show (if r.value1 ∈ Other_Nodes info.node_name rest ∧
              0 < r.value2 ∧ r.value2 < MAX_DIST then cnt + 1 + 1 else cnt + 1) = _
            rw [if_neg hmem, if_pos hmem2]
          · intro k
            rw [h8 k]
            show (if (r.value1 ∈ Other_Nodes info.node_name rest ∧
              0 < r.value2 ∧ r.value2 < MAX_DIST) ∧ k.val = cnt + 1 then To_Neighbor r
              else setSlot info.neighbors ⟨cnt, hc⟩ (To_Neighbor r) k) = _
            rw [if_neg (fun h => hmem h.1)]
            by_cases hk : k.val = cnt
            · rw [if_pos ⟨hmem2, hk⟩, show k = ⟨cnt, hc⟩ from Fin.ext hk]
              exact setSlot_same _ _ _
            · rw [if_neg (fun h => hk h.2)]
              exact setSlot_other _ _ _ _ (fun h => hk (by rw [h]))
        · rw [Populate_Slots_nolink r n rest j info cnt hj hn hv]
          obtain ⟨info2, cnt2, h1, h2, h3, h4, h5, h6, h7, h8⟩ := ih (j + 1)
            { info with
              routing_table := (setSlot info.routing_table ⟨j, hj⟩
                (Slot_After r n (info.routing_table ⟨j, hj⟩))) } cnt hnd.2
            (by show j + 1 + (Other_Nodes info.node_name rest).length = MAX_NEIGHBORS; omega)
            (fun hd h => hcap hd (List.mem_cons_of_mem _ h))
          have hiff : (r.value1 ∈ n :: Other_Nodes info.node_name rest ∧
              0 < r.value2 ∧ r.value2 < MAX_DIST) ↔
              (r.value1 ∈ Other_Nodes info.node_name rest ∧
              0 < r.value2 ∧ r.value2 < MAX_DIST) := by
            constructor
            · rintro ⟨h9, h10⟩
              rcases List.mem_cons.mp h9 with h11 | h11
              · exact absurd ⟨h11.symm, h10⟩ hv
              · exact ⟨h11, h10⟩
            · rintro ⟨h9, h10⟩
              exact ⟨List.mem_cons_of_mem _ h9, h10⟩
          refine ⟨info2, cnt2, h1, h2, h3, h4, ?_, ?_, ?_, ?_⟩
          · intro k hk
            rw [h5 k (by omega)]
            exact setSlot_other _ _ _ _ (fun h => by rw [h] at hk; exact absurd hk (lt_irrefl _))
          · intro k m hk hm
            by_cases hkj : k.val = j
            · have hk2 : k = ⟨j, hj⟩ := Fin.ext hkj
              rw [hkj, Nat.sub_self, List.getElem?_cons_zero] at hm
              rw [h5 k (by omega), hk2, ← Option.some.inj hm]
              exact setSlot_same _ _ _
            · have h9 : k.val - j = (k.val - (j + 1)) + 1 := by omega
              rw [h9, List.getElem?_cons_succ] at hm
              rw [h6 k m (by omega) hm]
              congr 1
              exact setSlot_other _ _ _ _ (fun h => hkj (by rw [h]))
          · rw [h7]
            exact if_congr hiff.symm rfl rfl
          · intro k
            rw [h8 k]
            exact if_congr (and_congr_left (fun _ => hiff.symm)) rfl rfl
    · have hO : (Other_Nodes info.node_name (n :: rest)).length = 0 := by omega
      have hnil : Other_Nodes info.node_name (n :: rest) = [] := List.length_eq_zero.mp hO
      refine ⟨info, cnt, Populate_Slots_done r _ j (info, cnt) hj, rfl, rfl, rfl,
        fun _ _ => rfl, ?_, ?_, ?_⟩
      · intro k m hk
        exact absurd k.isLt (by omega)
      · rw [hnil]
        simp
      · intro k
        rw [hnil]
        simp

theorem Other_Nodes_length (self : Char) (hself : self ∈ nodes) :
    (Other_Nodes self nodes).length = MAX_NEIGHBORS := by
  simp only [nodes, List.mem_cons, List.mem_singleton, List.not_mem_nil, or_false] at hself
  rcases hself with rfl | rfl | rfl | rfl | rfl | rfl | rfl <;> decide

theorem Other_Nodes_get (self : Char) (hself : self ∈ nodes) (k : Fin MAX_NEIGHBORS) :
    (Other_Nodes self nodes)[k.val]? = some (Other_Node self k) := by
  have hk : k.val < (Other_Nodes self nodes).length := by
    rw [Other_Nodes_length self hself]
    exact k.isLt
  simp [Other_Node, List.getD_eq_getElem?_getD, List.getElem?_eq_getElem hk]

theorem Other_Node_mem (self : Char) (hself : self ∈ nodes) (k : Fin MAX_NEIGHBORS) :
    Other_Node self k ∈ Other_Nodes self nodes :=
  List.getElem?_mem (Other_Nodes_get self hself k)

theorem nodes_nodup : nodes.Nodup := by decide

/-- The slot loop started at `i = 0`, `j = 0` for a node of A..G. -/
theorem Populate_Slots_nodes (r : Config_Record) (info : Info_Config) (cnt : Nat)
    (hself : info.node_name ∈ nodes)
    (hcap : Is_Link info.node_name r → cnt < MAX_NEIGHBORS) :
    ∃ (info2 : Info_Config) (cnt2 : Nat),
      Populate_Slots r nodes 0 (info, cnt) = some (info2, cnt2) ∧
      info2.node_name = info.node_name ∧ info2.port_no = info.port_no ∧
      (∀ k : Fin MAX_NEIGHBORS, info2.routing_table k =
        Slot_After r (Other_Node info.node_name k) (info.routing_table k)) ∧
      (cnt2 = if Is_Link info.node_name r then cnt + 1 else cnt) ∧
      (∀ k : Fin MAX_NEIGHBORS, info2.neighbors k =
        if Is_Link info.node_name r ∧ k.val = cnt then To_Neighbor r else info.neighbors k) := by
  obtain ⟨info2, cnt2, h1, h2, h3, _, _, h6, h7, h8⟩ :=
    Populate_Slots_spec r nodes 0 info cnt nodes_nodup
      (by rw [Other_Nodes_length _ hself]; rfl)
      (fun hd hm => hcap ⟨hm, hd⟩)
  refine ⟨info2, cnt2, h1, h2, h3, ?_, h7, h8⟩
  intro k
  exact h6 k _ (Nat.zero_le _) (by rw [Nat.sub_zero]; exact Other_Nodes_get _ hself k)

/-- A configuration that names every other node once has at most
`MAX_NEIGHBORS` link records. -/
theorem links_length_le (self : Char) (hself : self ∈ nodes) (records : List Config_Record)
    (hrec : ∀ n ∈ nodes, n ≠ self → (records.map (fun r => r.value1)).count n = 1) :
    (records.filter (fun r => decide (Is_Link self r))).length ≤ MAX_NEIGHBORS := by
  have hsub : ((records.filter (fun r => decide (Is_Link self r))).map (fun r => r.value1)).Sublist
      (records.map (fun r => r.value1)) :=
    List.Sublist.map _ (List.filter_sublist _)
  have hnd : ((records.filter (fun r => decide (Is_Link self r))).map (fun r => r.value1)).Nodup := by
    rw [List.nodup_iff_count_le_one]
    intro a
    by_cases ha : a ∈ Other_Nodes self nodes
    · have := (mem_Other_Nodes _ _ _).mp ha
      rw [← hrec a this.1 this.2]
      exact List.Sublist.count_le hsub a
    · rw [List.count_eq_zero.mpr]
      · exact Nat.zero_le _
      · intro hmem
        obtain ⟨r, hr, rfl⟩ := List.mem_map.mp hmem
        have := (List.mem_filter.mp hr).2
        simp only [decide_eq_true_eq] at this
        exact ha this.1
  have hss : (records.filter (fun r => decide (Is_Link self r))).map (fun r => r.value1) ⊆
      Other_Nodes self nodes := by
    intro a hmem
    obtain ⟨r, hr, rfl⟩ := List.mem_map.mp hmem
    have := (List.mem_filter.mp hr).2
    simp only [decide_eq_true_eq] at this
    exact this.1
  have := (List.subperm_of_subset hnd hss).length_le
  rw [List.length_map, Other_Nodes_length self hself] at this
  exact this

/-- In a configuration that names node `n` once, no record before the one
naming `n` names it too. -/
theorem no_earlier_record (n : Char) (done rest : List Config_Record) (r : Config_Record)
    (hcount : ((done ++ r :: rest).map (fun r => r.value1)).count n = 1) (hr : r.value1 = n) :
    ∀ r2 ∈ done, r2.value1 ≠ n := by
  intro r2 hr2 h2
  rw [List.map_append, List.count_append, List.map_cons, hr, List.count_cons_self] at hcount
  have hpos : 0 < (done.map (fun r => r.value1)).count n :=
    List.count_pos_iff.mpr (List.mem_map.mpr ⟨r2, hr2, h2⟩)
  omega

theorem Slot_After_own_link (r : Config_Record) (n : Char) (e : Routing_Table)
    (hn : r.value1 = n) (hd : 0 < r.value2 ∧ r.value2 < MAX_DIST) :
    Slot_After r n e = ⟨n, r.value2, n⟩ := by
  unfold Slot_After
  rw [if_pos hn.symm, if_pos hd, hn]

theorem Slot_After_own_nolink (r : Config_Record) (n : Char) (e : Routing_Table)
    (hn : r.value1 = n) (hd : ¬ (0 < r.value2 ∧ r.value2 < MAX_DIST)) :
    Slot_After r n e = ⟨e.dest, MAX_DIST, UNKNOWN_HOP⟩ := by
  unfold Slot_After
  rw [if_pos hn.symm, if_neg hd]

theorem Slot_After_other_dest (r : Config_Record) (n : Char) (e : Routing_Table)
    (hn : r.value1 ≠ n) : (Slot_After r n e).dest = n := by
  unfold Slot_After
  rw [if_neg (fun h => hn h.symm)]
  split <;> rfl

theorem Slot_After_other_keeps (r : Config_Record) (n : Char) (e : Routing_Table)
    (hn : r.value1 ≠ n) (h1 : 0 < e.dist) (h2 : e.dist ≤ MAX_DIST) :
    Slot_After r n e = ⟨n, e.dist, e.next_hop⟩ := by
  unfold Slot_After
  rw [if_neg (fun h => hn h.symm), if_neg]
  omega

/-- One record keeps the invariant of the record loop. -/
theorem Populate_Inv_step (self : Char) (port : Int) (hself : self ∈ nodes)
    (done rest : List Config_Record) (r : Config_Record)
    (hrec : ∀ n ∈ nodes, n ≠ self → ((done ++ r :: rest).map (fun r => r.value1)).count n = 1)
    (info : Info_Config) (cnt : Nat) (hinv : Populate_Inv self port done info cnt) :
    ∃ (info2 : Info_Config) (cnt2 : Nat),
      Populate_Slots r nodes 0 (info, cnt) = some (info2, cnt2) ∧
      Populate_Inv self port (done ++ [r])
        { info2 with no_of_neighbors := (cnt2 : Int) } cnt2 := by
  obtain ⟨i1, i2, i3, _, i5, i6, i7⟩ := hinv
  have hfil : ∀ l : List Config_Record,
      (done ++ r :: l).filter (fun r => decide (Is_Link self r)) =
        done.filter (fun r => decide (Is_Link self r)) ++
          ((if Is_Link self r then [r] else []) ++
            l.filter (fun r => decide (Is_Link self r))) := by
    intro l
    rw [List.filter_append, List.filter_cons]
    by_cases h : Is_Link self r
    · simp [h]
    · simp [h]
  have hcap : Is_Link info.node_name r → cnt < MAX_NEIGHBORS := by
    intro hl
    rw [i1] at hl
    have h1 := links_length_le self hself (done ++ r :: rest) hrec
    rw [hfil rest, if_pos hl] at h1
    simp only [List.length_append, List.length_cons, List.length_nil] at h1
    omega
  obtain ⟨info2, cnt2, h1, h2, h3, h4, h5, h6⟩ :=
    Populate_Slots_nodes r info cnt (i1 ▸ hself) hcap
  rw [i1] at h4 h5 h6
  have hfil1 : (done ++ [r]).filter (fun r => decide (Is_Link self r)) =
      done.filter (fun r => decide (Is_Link self r)) ++ (if Is_Link self r then [r] else []) := by
    have := hfil []
    simpa using this
  have hother : ∀ k : Fin MAX_NEIGHBORS, r.value1 = Other_Node self k →
      ∀ r2 ∈ done, r2.value1 ≠ Other_Node self k := by
    intro k hk
    have hm := (mem_Other_Nodes _ _ _).mp (Other_Node_mem self hself k)
    exact no_earlier_record _ done rest r (hrec _ hm.1 hm.2) hk
  refine ⟨info2, cnt2, h1, ?_, ?_, ?_, ?_, ?_, ?_, ?_⟩
  · show info2.node_name = self
    rw [h2, i1]
  · show info2.port_no = port
    rw [h3, i2]
  · rw [h5, hfil1, List.length_append, ← i3]
    split <;> rfl
  · intro _
    rfl
  · intro k r2 hk
    show info2.neighbors k = To_Neighbor r2
    rw [h6 k]
    rw [hfil1] at hk
    by_cases hlt : k.val < (done.filter (fun r => decide (Is_Link self r))).length
    · rw [List.getElem?_append_left hlt] at hk
      rw [if_neg (fun h => by rw [i3] at h; omega)]
      exact i5 k r2 hk
    · rw [List.getElem?_append_right (by omega)] at hk
      by_cases hl : Is_Link self r
      · rw [if_pos hl] at hk
        have hk0 : k.val - (done.filter (fun r => decide (Is_Link self r))).length = 0 := by
          by_contra hne
          have : k.val - (done.filter (fun r => decide (Is_Link self r))).length =
              (k.val - (done.filter (fun r => decide (Is_Link self r))).length - 1) + 1 := by
            omega
          rw [this, List.getElem?_cons_succ] at hk
          simp at hk
        rw [hk0, List.getElem?_cons_zero] at hk
        rw [if_pos ⟨hl, by rw [i3]; omega⟩, Option.some.inj hk]
      · rw [if_neg hl] at hk
        simp at hk
  · intro k r2 hr2 hv
    show (_ → info2.routing_table k = _) ∧
      (_ → (info2.routing_table k).dist = _ ∧ (info2.routing_table k).next_hop = _)
    rw [h4 k]
    rcases List.mem_append.mp hr2 with hd | hd
    · have hne : r.value1 ≠ Other_Node self k := fun h => hother k h r2 hd hv
      obtain ⟨a1, a2⟩ := i6 k r2 hd hv
      constructor
      · intro hl
        have := a1 hl
        rw [Slot_After_other_keeps r _ _ hne (by rw [this]; exact hl.1)
          (by rw [this]; exact le_of_lt hl.2), this]
      · intro hl
        have := a2 hl
        rw [Slot_After_other_keeps r _ _ hne (by rw [this.1]; decide)
          (by rw [this.1]), this.1, this.2]
        exact ⟨rfl, rfl⟩
    · have hrr : r2 = r := by simpa using hd
      subst hrr
      constructor
      · intro hl
        exact Slot_After_own_link r2 _ _ hv hl
      · intro hl
        rw [Slot_After_own_nolink r2 _ _ hv hl]
        exact ⟨rfl, rfl⟩
  · intro k hex
    show (info2.routing_table k).dest = Other_Node self k
    rw [h4 k]
    by_cases hv : r.value1 = Other_Node self k
    · obtain ⟨r2, hr2, hne⟩ := hex
      rcases List.mem_append.mp hr2 with hd | hd
      · have hdest := i7 k ⟨r2, hd, hne⟩
        by_cases hl : 0 < r.value2 ∧ r.value2 < MAX_DIST
        · rw [Slot_After_own_link r _ _ hv hl]
        · rw [Slot_After_own_nolink r _ _ hv hl]
          exact hdest
      · have hrr : r2 = r := by simpa using hd
        exact absurd (hrr ▸ hv) hne
    · exact Slot_After_other_dest r _ _ hv

/-- The record loop establishes the invariant for the whole configuration. -/
theorem Populate_Records_spec (self : Char) (port : Int) (hself : self ∈ nodes)
    (rest : List Config_Record) :
    ∀ (done : List Config_Record) (info : Info_Config) (cnt : Nat),
      (∀ n ∈ nodes, n ≠ self → ((done ++ rest).map (fun r => r.value1)).count n = 1) →
      Populate_Inv self port done info cnt →
      ∃ (info2 : Info_Config) (cnt2 : Nat),
        Populate_Records rest (info, cnt) = some (info2, cnt2) ∧
        Populate_Inv self port (done ++ rest) info2 cnt2 := by
  induction rest with
  | nil =>
    intro done info cnt _ hinv
    exact ⟨info, cnt, rfl, by rw [List.append_nil]; exact hinv⟩
  | cons r rest ih =>
    intro done info cnt hrec hinv
    obtain ⟨info1, cnt1, h1, h2⟩ := Populate_Inv_step self port hself done rest r hrec info cnt hinv
    have hrec2 : ∀ n ∈ nodes, n ≠ self →
        ((done ++ [r] ++ rest).map (fun r => r.value1)).count n = 1 := by
      rw [List.append_assoc]
      exact hrec
    obtain ⟨info2, cnt2, h3, h4⟩ := ih (done ++ [r]) _ cnt1 hrec2 h2
    refine ⟨info2, cnt2, ?_, ?_⟩
    · rw [Populate_Records, h1]
      exact h3
    · rw [List.append_assoc] at h4
      exact h4

theorem Populate_Inv_init (self : Char) (port : Int) (prior : Info_Config) :
    Populate_Inv self port [] { prior with node_name := self, port_no := port } 0 := by
  refine ⟨rfl, rfl, rfl, fun h => absurd rfl h, ?_, ?_, ?_⟩
  · intro k r h
    simp at h
  · intro k r h
    simp at h
  · rintro k ⟨r, h, _⟩
    simp at h

theorem exists_record (self : Char) (records : List Config_Record)
    (hrec : ∀ n ∈ nodes, n ≠ self → (records.map (fun r => r.value1)).count n = 1)
    (n : Char) (hn : n ∈ Other_Nodes self nodes) : ∃ r ∈ records, r.value1 = n := by
  have hm := (mem_Other_Nodes _ _ _).mp hn
  have hpos : 0 < (records.map (fun r => r.value1)).count n := by
    rw [hrec n hm.1 hm.2]
    exact Nat.one_pos
  obtain ⟨r, hr, hv⟩ := List.mem_map.mp (List.count_pos_iff.mp hpos)
  exact ⟨r, hr, hv⟩

theorem exists_other_slot (self : Char) (hself : self ∈ nodes) :
    ∀ j : Fin MAX_NEIGHBORS, ∃ j2 : Fin MAX_NEIGHBORS, Other_Node self j2 ≠ Other_Node self j := by
  simp only [nodes, List.mem_cons, List.mem_singleton, List.not_mem_nil, or_false] at hself
  rcases hself with rfl | rfl | rfl | rfl | rfl | rfl | rfl <;> decide

/-- What `Populate_From_Config` leaves in the node state, for a node of A..G and a
configuration naming every other node once. -/
theorem Populate_From_Config_spec (self : Char) (port : Int)
    (records : List Config_Record) (prior : Info_Config)
    (hself : self ∈ nodes)
    (hrec : ∀ n ∈ nodes, n ≠ self → (records.map (fun r => r.value1)).count n = 1) :
    ∃ info : Info_Config,
      Populate_From_Config self port records prior = some info ∧
      info.node_name = self ∧
      (∀ j : Fin MAX_NEIGHBORS,
        (info.routing_table j).dest = Other_Node self j ∧
        ∀ r ∈ records, r.value1 = Other_Node self j →
          ((0 < r.value2 ∧ r.value2 < MAX_DIST) →
            (info.routing_table j).dist = r.value2 ∧
            (info.routing_table j).next_hop = Other_Node self j) ∧
          (¬ (0 < r.value2 ∧ r.value2 < MAX_DIST) →
            (info.routing_table j).dist = MAX_DIST ∧
            (info.routing_table j).next_hop = UNKNOWN_HOP)) ∧
      info.no_of_neighbors =
        ((records.filter (fun r => decide (Is_Link self r))).length : Int) ∧
      (∀ (k : Fin MAX_NEIGHBORS) (r : Config_Record),
        (records.filter (fun r => decide (Is_Link self r)))[k.val]? = some r →
        info.neighbors k = To_Neighbor r) ∧
      (∀ (n : Char) (d : Int),
        (∃ k : Fin MAX_NEIGHBORS, (k.val : Int) < info.no_of_neighbors ∧
          (info.neighbors k).dest = n ∧ (info.neighbors k).dist = d) ↔
        (∃ r ∈ records, r.value1 = n ∧ r.value2 = d ∧
          n ∈ nodes ∧ n ≠ self ∧ 0 < d ∧ d < MAX_DIST)) := by
  obtain ⟨info, cnt, h1, h2⟩ := Populate_Records_spec self port hself records [] _ 0
    (by rw [List.nil_append]; exact hrec) (Populate_Inv_init self port prior)
  rw [List.nil_append] at h2
  obtain ⟨i1, _, i3, i4, i5, i6, i7⟩ := h2
  have hne : records ≠ [] := by
    obtain ⟨r, hr, _⟩ := exists_record self records hrec _
      (Other_Node_mem self hself 0)
    exact List.ne_nil_of_mem hr
  have hnon : info.no_of_neighbors =
      ((records.filter (fun r => decide (Is_Link self r))).length : Int) := by
    rw [i4 hne, i3]
  have hle := links_length_le self hself records hrec
  refine ⟨info, ?_, i1, ?_, hnon, i5, ?_⟩
  · unfold Populate_From_Config
    rw [h1]
    rfl
  · intro j
    constructor
    · obtain ⟨j2, hj2⟩ := exists_other_slot self hself j
      obtain ⟨r, hr, hv⟩ := exists_record self records hrec _ (Other_Node_mem self hself j2)
      exact i7 j ⟨r, hr, by rw [hv]; exact hj2⟩
    · intro r hr hv
      obtain ⟨a1, a2⟩ := i6 j r hr hv
      refine ⟨fun hl => ?_, a2⟩
      rw [a1 hl]
      exact ⟨rfl, rfl⟩
  · intro n d
    constructor
    · rintro ⟨k, hk, hdest, hdist⟩
      rw [hnon] at hk
      have hk2 : k.val < (records.filter (fun r => decide (Is_Link self r))).length := by
        exact_mod_cast hk
      have hget := List.getElem?_eq_getElem hk2
      have hmem := List.getElem?_mem hget
      have hnb := i5 k _ hget
      obtain ⟨hr, hl⟩ := List.mem_filter.mp hmem
      simp only [decide_eq_true_eq] at hl
      rw [hnb] at hdest hdist
      have hm := (mem_Other_Nodes _ _ _).mp hl.1
      refine ⟨_, hr, hdest, hdist, ?_, ?_, ?_, ?_⟩
      · rw [← hdest]; exact hm.1
      · rw [← hdest]; exact hm.2
      · rw [← hdist]; exact hl.2.1
      · rw [← hdist]; exact hl.2.2
    · rintro ⟨r, hr, hv, hd, hn1, hn2, hd1, hd2⟩
      have hl : Is_Link self r :=
        ⟨(mem_Other_Nodes _ _ _).mpr ⟨hv ▸ hn1, hv ▸ hn2⟩, hd ▸ hd1, hd ▸ hd2⟩
      have hmem : r ∈ records.filter (fun r => decide (Is_Link self r)) :=
        List.mem_filter.mpr ⟨hr, by simpa using hl⟩
      obtain ⟨m, hm⟩ := List.mem_iff_getElem?.mp hmem
      have hm2 : m < (records.filter (fun r => decide (Is_Link self r))).length := by
        by_contra hcon
        rw [List.getElem?_eq_none (by omega)] at hm
        exact absurd hm (by simp)
      have hm3 : m < MAX_NEIGHBORS := by omega
      refine ⟨⟨m, hm3⟩, ?_, ?_, ?_⟩
      · rw [hnon]
        exact_mod_cast hm2
      · rw [i5 ⟨m, hm3⟩ r hm]
        exact hv
      · rw [i5 ⟨m, hm3⟩ r hm]
        exact hd

/-- C7: for a node of A..G, whatever the object held before, and a configuration
that names each of the six other nodes in exactly one record (records naming the
node itself or a symbol outside A..G may occur too), `Populate_From_Config`
returns; slot `j` of the routing table then has `dest` equal to the `j`-th node
of A..G with the node itself removed, and holds `{configured distance, that node}`
when the configured distance `d` has `0 < d < MAX_DIST` and `{MAX_DIST,
UNKNOWN_HOP}` otherwise; `no_of_neighbors` is the number of records of other
nodes with `0 < d < MAX_DIST`, the first `no_of_neighbors` neighbour slots are
these records in file order, and so the neighbour list names exactly those
nodes, each with its configured distance. -/
theorem C7_initial_table_from_config (self : Char) (port : Int)
    (records : List Config_Record) (prior : Info_Config)
    (hself : self ∈ nodes)
    (hrec : ∀ n ∈ nodes, n ≠ self → (records.map (fun r => r.value1)).count n = 1) :
    ∃ info : Info_Config,
      Populate_From_Config self port records prior = some info ∧
      info.node_name = self ∧
      (∀ j : Fin MAX_NEIGHBORS,
        (info.routing_table j).dest = Other_Node self j ∧
        ∀ r ∈ records, r.value1 = Other_Node self j →
          ((0 < r.value2 ∧ r.value2 < MAX_DIST) →
            (info.routing_table j).dist = r.value2 ∧
            (info.routing_table j).next_hop = Other_Node self j) ∧
          (¬ (0 < r.value2 ∧ r.value2 < MAX_DIST) →
            (info.routing_table j).dist = MAX_DIST ∧
            (info.routing_table j).next_hop = UNKNOWN_HOP)) ∧
      info.no_of_neighbors =
        ((records.filter (fun r => decide (Is_Link self r))).length : Int) ∧
      (∀ (k : Fin MAX_NEIGHBORS) (r : Config_Record),
        (records.filter (fun r => decide (Is_Link self r)))[k.val]? = some r →
        info.neighbors k = To_Neighbor r) ∧
      (∀ (n : Char) (d : Int),
        (∃ k : Fin MAX_NEIGHBORS, (k.val : Int) < info.no_of_neighbors ∧
          (info.neighbors k).dest = n ∧ (info.neighbors k).dist = d) ↔
        (∃ r ∈ records, r.value1 = n ∧ r.value2 = d ∧
          n ∈ nodes ∧ n ≠ self ∧ 0 < d ∧ d < MAX_DIST)) := by
  obtain ⟨info, h1, h2, h3, h4, h5, h6⟩ :=
    Populate_From_Config_spec self port records prior hself hrec
  exact ⟨info, h1, h2, h3, h4, h5, h6⟩

/-- Witness for C7: node B, the six records of `configB`, and an object that held
arbitrary content before the call. -/
theorem C7_initial_table_from_config_witness :
    'B' ∈ nodes ∧
    (∀ n ∈ nodes, n ≠ 'B' → (configB.map (fun r => r.value1)).count n = 1) ∧
    ∃ info : Info_Config,
      Populate_From_Config 'B' 5001 configB garbageInfo = some info ∧
      info.node_name = 'B' ∧
      (∀ j : Fin MAX_NEIGHBORS,
        (info.routing_table j).dest = Other_Node 'B' j ∧
        ∀ r ∈ configB, r.value1 = Other_Node 'B' j →
          ((0 < r.value2 ∧ r.value2 < MAX_DIST) →
            (info.routing_table j).dist = r.value2 ∧
            (info.routing_table j).next_hop = Other_Node 'B' j) ∧
          (¬ (0 < r.value2 ∧ r.value2 < MAX_DIST) →
            (info.routing_table j).dist = MAX_DIST ∧
            (info.routing_table j).next_hop = UNKNOWN_HOP)) ∧
      info.no_of_neighbors =
        ((configB.filter (fun r => decide (Is_Link 'B' r))).length : Int) ∧
      (∀ (k : Fin MAX_NEIGHBORS) (r : Config_Record),
        (configB.filter (fun r => decide (Is_Link 'B' r)))[k.val]? = some r →
        info.neighbors k = To_Neighbor r) ∧
      (∀ (n : Char) (d : Int),
        (∃ k : Fin MAX_NEIGHBORS, (k.val : Int) < info.no_of_neighbors ∧
          (info.neighbors k).dest = n ∧ (info.neighbors k).dist = d) ↔
        (∃ r ∈ configB, r.value1 = n ∧ r.value2 = d ∧
          n ∈ nodes ∧ n ≠ 'B' ∧ 0 < d ∧ d < MAX_DIST)) :=
  ⟨by decide, by decide,
    C7_initial_table_from_config 'B' 5001 configB garbageInfo (by decide) (by decide)⟩

/-! ## `SendDistVect` -/

theorem Other_Nodes_nodup (u : Char) : (Other_Nodes u nodes).Nodup :=
  List.Nodup.filter _ nodes_nodup

theorem Config_Of_names (topo : Topology) (u : Char) :
    (Config_Of topo u).map (fun r => r.value1) = Other_Nodes u nodes := by
  unfold Config_Of
  rw [List.map_map]
  exact List.map_id _

theorem mem_Config_Of (topo : Topology) (u : Char) (r : Config_Record) :
    r ∈ Config_Of topo u ↔ ∃ n ∈ Other_Nodes u nodes, r = ⟨n, topo.cost u n, "", 0⟩ := by
  unfold Config_Of
  rw [List.mem_map]
  constructor
  · rintro ⟨n, hn, rfl⟩
    exact ⟨n, hn, rfl⟩
  · rintro ⟨n, hn, rfl⟩
    exact ⟨n, hn, rfl⟩

theorem Config_Of_once (topo : Topology) (u : Char) :
    ∀ n ∈ nodes, n ≠ u → ((Config_Of topo u).map (fun r => r.value1)).count n = 1 := by
  intro n hn hne
  rw [Config_Of_names]
  exact List.count_eq_one_of_mem (Other_Nodes_nodup u) ((mem_Other_Nodes _ _ _).mpr ⟨hn, hne⟩)

/-- Every node of A..G starts well formed, with the link cost in the slot of each
neighbour and `MAX_DIST` in every other slot. -/
theorem Network_Start_spec (topo : Topology) (prior : Char → Info_Config) (u : Char)
    (hu : u ∈ nodes) :
    Populate_From_Config u 0 (Config_Of topo u) (prior u) = some (Network_Start topo prior u) ∧
    Well_Formed topo u (Network_Start topo prior u) ∧
    ∀ j, ((Network_Start topo prior u).routing_table j).dist =
      if Has_Link topo u (Other_Node u j) then topo.cost u (Other_Node u j) else MAX_DIST := by
  obtain ⟨info, h1, h2, h3, _, _, h6⟩ :=
    Populate_From_Config_spec u 0 (Config_Of topo u) (prior u) hu (Config_Of_once topo u)
  have hst : Network_Start topo prior u = info := by
    unfold Network_Start
    rw [h1]
    rfl
  rw [hst]
  refine ⟨h1, ⟨h2, fun j => (h3 j).1, ?_⟩, ?_⟩
  · intro n d
    rw [h6 n d]
    constructor
    · rintro ⟨r, hr, hv, hd, hn1, hn2, hd1, hd2⟩
      obtain ⟨m, _, rfl⟩ := (mem_Config_Of topo u r).mp hr
      simp only at hv hd
      subst hv
      exact ⟨⟨hn1, hn2, hd ▸ hd1, hd ▸ hd2⟩, hd.symm⟩
    · rintro ⟨⟨hn1, hn2, hd1, hd2⟩, hd⟩
      exact ⟨⟨n, topo.cost u n, "", 0⟩,
        (mem_Config_Of topo u _).mpr ⟨n, (mem_Other_Nodes _ _ _).mpr ⟨hn1, hn2⟩, rfl⟩,
        rfl, hd.symm, hn1, hn2, hd ▸ hd1, hd ▸ hd2⟩
  · intro j
    have hmem := Other_Node_mem u hu j
    have hm := (mem_Other_Nodes _ _ _).mp hmem
    have hr : (⟨Other_Node u j, topo.cost u (Other_Node u j), "", 0⟩ : Config_Record) ∈
        Config_Of topo u := (mem_Config_Of topo u _).mpr ⟨_, hmem, rfl⟩
    obtain ⟨a1, a2⟩ := (h3 j).2 _ hr rfl
    by_cases hl : Has_Link topo u (Other_Node u j)
    · rw [if_pos hl]
      exact (a1 ⟨hl.2.2.1, hl.2.2.2⟩).1
    · rw [if_neg hl]
      exact (a2 (fun h => hl ⟨hm.1, hm.2, h.1, h.2⟩)).1

/-! ## One received vector, seen on distances -/

theorem Other_Node_injective (u : Char) (hu : u ∈ nodes) :
    ∀ j j2 : Fin MAX_NEIGHBORS, Other_Node u j = Other_Node u j2 → j = j2 := by
  simp only [nodes, List.mem_cons, List.mem_singleton, List.not_mem_nil, or_false] at hu
  rcases hu with rfl | rfl | rfl | rfl | rfl | rfl | rfl <;> decide

theorem Other_Node_exists (u n : Char) (hu : u ∈ nodes) (hn : n ∈ nodes) (hne : n ≠ u) :
    ∃ j : Fin MAX_NEIGHBORS, Other_Node u j = n := by
  have hmem : n ∈ Other_Nodes u nodes := (mem_Other_Nodes _ _ _).mpr ⟨hn, hne⟩
  obtain ⟨m, hm⟩ := List.mem_iff_getElem?.mp hmem
  have hm2 : m < MAX_NEIGHBORS := by
    by_contra hcon
    rw [List.getElem?_eq_none (by rw [Other_Nodes_length u hu]; omega)] at hm
    exact absurd hm (by simp)
  refine ⟨⟨m, hm2⟩, ?_⟩
  have := Other_Nodes_get u hu ⟨m, hm2⟩
  rw [hm] at this
  exact (Option.some.inj this).symm

theorem Other_Node_ne (u : Char) (hu : u ∈ nodes) (j : Fin MAX_NEIGHBORS) :
    Other_Node u j ∈ nodes ∧ Other_Node u j ≠ u :=
  (mem_Other_Nodes _ _ _).mp (Other_Node_mem u hu j)

theorem relaxOne_dist_cases (s : Char) (c : Int) (e : Routing_Table) (el : Element_Dist_Vector) :
    (relaxOne s c e el).dist = e.dist ∨
      (e.dest = el.dest ∧ (relaxOne s c e el).dist = el.dist + c) := by
  unfold relaxOne
  split
  · rename_i h
    exact Or.inr ⟨h.1, rfl⟩
  · exact Or.inl rfl

theorem relaxOne_le_candidate (s : Char) (c : Int) (e : Routing_Table) (el : Element_Dist_Vector)
    (hd : e.dest = el.dest) : (relaxOne s c e el).dist ≤ el.dist + c := by
  unfold relaxOne
  split
  · exact le_refl _
  · rename_i h
    have h2 : ¬ Improves c e el := fun hi => h ⟨hd, hi⟩
    unfold Improves at h2
    push_neg at h2
    exact h2.2

theorem relaxOne_mono (s : Char) (c : Int) (e : Routing_Table) (el : Element_Dist_Vector)
    (hlt : e.dist < MAX_DIST) : (relaxOne s c e el).dist ≤ e.dist := by
  unfold relaxOne
  split
  · rename_i h
    rcases h.2 with ⟨h1, _⟩ | h1
    · exact absurd h1 (ne_of_lt hlt)
    · exact le_of_lt h1
  · exact le_refl _

/-- The link cost a well-formed node finds for a neighbour is the cost of the link. -/
theorem Link_Cost_of_link (topo : Topology) (u w : Char) (info : Info_Config)
    (hwf : Well_Formed topo u info) (hl : Has_Link topo u w) :
    Link_Cost info w = topo.cost u w := by
  obtain ⟨k, hk, hd, hc⟩ := (hwf.2.2 w (topo.cost u w)).mpr ⟨hl, rfl⟩
  apply Link_Cost_of_neighbor info w _ k hk hd
  intro m hm hmd
  exact ((hwf.2.2 w (info.neighbors m).dist).mp ⟨m, hm, hmd, rfl⟩).2

/-- A neighbour slot of a well-formed node names a node it has a link to. -/
theorem neighbor_has_link (topo : Topology) (u : Char) (info : Info_Config)
    (hwf : Well_Formed topo u info) (k : Fin MAX_NEIGHBORS)
    (hk : (k.val : Int) < info.no_of_neighbors) :
    Has_Link topo u (info.neighbors k).dest :=
  ((hwf.2.2 _ _).mp ⟨k, hk, rfl, rfl⟩).1

/-- The state of node `u` after the vector of its neighbour `w`. -/
theorem Update_from_neighbor (topo : Topology) (u w : Char) (hw : w ∈ nodes)
    (info infow : Info_Config) (hwf : Well_Formed topo u info)
    (hwfw : Well_Formed topo w infow) (hl : Has_Link topo u w) :
    Well_Formed topo u
      (Update_Routing_Table info (Build_Distance_Vector blankVector infow).1).1 ∧
    ∀ j : Fin MAX_NEIGHBORS,
      (Other_Node u j = w →
        (Update_Routing_Table info (Build_Distance_Vector blankVector infow).1).1.routing_table j =
          info.routing_table j) ∧
      (∀ j2 : Fin MAX_NEIGHBORS, Other_Node w j2 = Other_Node u j →
        (Update_Routing_Table info (Build_Distance_Vector blankVector infow).1).1.routing_table j =
          relaxOne w (topo.cost u w) (info.routing_table j)
            ⟨Other_Node u j, (infow.routing_table j2).dist⟩) := by
  obtain ⟨b1, _, b3, _⟩ := Build_spec blankVector infow
  have hsender : (Build_Distance_Vector blankVector infow).1.sender = w := by
    rw [b1, hwfw.1]
  have hel : ∀ j2, (Build_Distance_Vector blankVector infow).1.element_Dist_Vector j2 =
      ⟨Other_Node w j2, (infow.routing_table j2).dist⟩ := by
    intro j2
    rw [b3 j2, hwfw.2.1 j2]
  have hcost : Link_Cost info (Build_Distance_Vector blankVector infow).1.sender =
      topo.cost u w := by
    rw [hsender]
    exact Link_Cost_of_link topo u w info hwf hl
  have hfr := Update_frame info (Build_Distance_Vector blankVector infow).1
  constructor
  · refine ⟨by rw [hfr.1]; exact hwf.1, ?_, ?_⟩
    · intro j
      rw [Update_table, relaxEntry_dest]
      exact hwf.2.1 j
    · intro n d
      rw [hfr.2.1, hfr.2.2.2]
      exact hwf.2.2 n d
  · intro j
    constructor
    · intro hj
      rw [Update_table]
      apply relaxEntry_of_not_Fires
      rw [Fires_elements]
      rintro ⟨j2, hd, _⟩
      rw [hel j2, hwf.2.1 j, hj] at hd
      exact (Other_Node_ne w hw j2).2 hd.symm
    · intro j2 hj2
      rw [Update_table, hcost, hsender]
      rw [← hsender, relaxEntry_once _ _ _ j2 (by rw [hel j2, hwf.2.1 j]; exact hj2)
        (fun j3 h3 => by
          rw [hel j3, hwf.2.1 j] at h3
          exact Other_Node_injective w hw j3 j2 (h3.trans hj2.symm)),
        hel j2, hj2, hsender]

/-! ## Folding over the neighbour list -/

theorem Receive_From_nil (net : Char → Info_Config) (info : Info_Config) :
    Receive_From net [] info = info := rfl

theorem Receive_From_cons_pos (net : Char → Info_Config) (k : Fin MAX_NEIGHBORS)
    (rest : List (Fin MAX_NEIGHBORS)) (info : Info_Config)
    (hk : (k.val : Int) < info.no_of_neighbors) :
    Receive_From net (k :: rest) info =
      Receive_From net rest
        (Update_Routing_Table info
          (Build_Distance_Vector blankVector (net (info.neighbors k).dest)).1).1 := by
  unfold Receive_From
  rw [List.foldl_cons, if_pos hk]

theorem Receive_From_cons_neg (net : Char → Info_Config) (k : Fin MAX_NEIGHBORS)
    (rest : List (Fin MAX_NEIGHBORS)) (info : Info_Config)
    (hk : ¬ (k.val : Int) < info.no_of_neighbors) :
    Receive_From net (k :: rest) info = Receive_From net rest info := by
  unfold Receive_From
  rw [List.foldl_cons, if_neg hk]

/-- A property that every received vector keeps holds after the whole neighbour
list has been worked through. -/
theorem Receive_From_preserves (topo : Topology) (net : Char → Info_Config) (u : Char)
    (hnet : ∀ w ∈ nodes, Well_Formed topo w (net w)) (P : Info_Config → Prop)
    (hstep : ∀ acc w, Well_Formed topo u acc → Has_Link topo u w → P acc →
      P (Update_Routing_Table acc (Build_Distance_Vector blankVector (net w)).1).1)
    (slots : List (Fin MAX_NEIGHBORS)) :
    ∀ info, Well_Formed topo u info → P info →
      Well_Formed topo u (Receive_From net slots info) ∧ P (Receive_From net slots info) := by
  induction slots with
  | nil =>
    intro info hwf hp
    exact ⟨hwf, hp⟩
  | cons k rest ih =>
    intro info hwf hp
    by_cases hk : (k.val : Int) < info.no_of_neighbors
    · rw [Receive_From_cons_pos net k rest info hk]
      have hl := neighbor_has_link topo u info hwf k hk
      exact ih _
        (Update_from_neighbor topo u _ hl.1 info _ hwf (hnet _ hl.1) hl).1
        (hstep info _ hwf hl hp)
    · rw [Receive_From_cons_neg net k rest info hk]
      exact ih info hwf hp

/-- A property that the vector of neighbour `w` establishes and every received
vector keeps holds after the whole neighbour list has been worked through. -/
theorem Receive_From_establishes (topo : Topology) (net : Char → Info_Config) (u w : Char)
    (hnet : ∀ w ∈ nodes, Well_Formed topo w (net w)) (Q : Info_Config → Prop)
    (hest : ∀ acc, Well_Formed topo u acc →
      Q (Update_Routing_Table acc (Build_Distance_Vector blankVector (net w)).1).1)
    (hpres : ∀ acc w2, Well_Formed topo u acc → Has_Link topo u w2 → Q acc →
      Q (Update_Routing_Table acc (Build_Distance_Vector blankVector (net w2)).1).1)
    (slots : List (Fin MAX_NEIGHBORS)) :
    ∀ info, Well_Formed topo u info →
      (∃ k ∈ slots, (k.val : Int) < info.no_of_neighbors ∧ (info.neighbors k).dest = w) →
      Q (Receive_From net slots info) := by
  induction slots with
  | nil =>
    rintro info _ ⟨k, hk, _⟩
    simp at hk
  | cons k rest ih =>
    rintro info hwf ⟨kw, hkw, hlt, hdest⟩
    by_cases hk : (k.val : Int) < info.no_of_neighbors
    · rw [Receive_From_cons_pos net k rest info hk]
      have hl := neighbor_has_link topo u info hwf k hk
      have hwf2 := (Update_from_neighbor topo u _ hl.1 info _ hwf (hnet _ hl.1) hl).1
      have hfr := Update_frame info
        (Build_Distance_Vector blankVector (net (info.neighbors k).dest)).1
      rcases List.mem_cons.mp hkw with rfl | hmem
      · rw [hdest] at hwf2 ⊢
        exact (Receive_From_preserves topo net u hnet Q hpres rest _ hwf2 (hest info hwf)).2
      · apply ih _ hwf2
        exact ⟨kw, hmem, by rw [hfr.2.1]; exact hlt, by rw [hfr.2.2.2]; exact hdest⟩
    · rw [Receive_From_cons_neg net k rest info hk]
      rcases List.mem_cons.mp hkw with rfl | hmem
      · exact absurd hlt hk
      · exact ih info hwf ⟨kw, hmem, hlt, hdest⟩

/-! ## Walks -/

theorem Walk_length_le_cost (topo : Topology) (p : List Char) :
    ∀ u, Is_Walk topo u p → (p.length : Int) ≤ Walk_Cost topo u p := by
  induction p with
  | nil => intro u _; simp [Walk_Cost]
  | cons v rest ih =>
    intro u h
    obtain ⟨hl, hrest⟩ := h
    have := ih v hrest
    have hc := hl.2.2.1
    simp only [List.length_cons, Walk_Cost]
    push_cast
    omega

theorem Walk_End_mem (topo : Topology) (p : List Char) :
    ∀ u, u ∈ nodes → Is_Walk topo u p → Walk_End u p ∈ nodes := by
  induction p with
  | nil => intro u hu _; exact hu
  | cons v rest ih =>
    intro u _ h
    exact ih v h.1.1 h.2

/-! ## What one received vector does to the distances -/

/-- The distance in slot `j` after the vector of neighbour `w`: unchanged, or the
distance `w` holds for the same destination plus the link cost. -/
theorem step_dist_cases (topo : Topology) (u w : Char) (hw : w ∈ nodes)
    (info infow : Info_Config) (hwf : Well_Formed topo u info)
    (hwfw : Well_Formed topo w infow) (hl : Has_Link topo u w) (j : Fin MAX_NEIGHBORS) :
    ((Update_Routing_Table info (Build_Distance_Vector blankVector infow).1).1.routing_table j).dist
        = (info.routing_table j).dist ∨
    ∃ j2, Other_Node w j2 = Other_Node u j ∧
      ((Update_Routing_Table info
        (Build_Distance_Vector blankVector infow).1).1.routing_table j).dist =
        (infow.routing_table j2).dist + topo.cost u w := by
  obtain ⟨h1, h2⟩ := (Update_from_neighbor topo u w hw info infow hwf hwfw hl).2 j
  by_cases hj : Other_Node u j = w
  · left
    rw [h1 hj]
  · by_cases hex : ∃ j2, Other_Node w j2 = Other_Node u j
    · obtain ⟨j2, hj2⟩ := hex
      rw [h2 j2 hj2]
      rcases relaxOne_dist_cases w (topo.cost u w) (info.routing_table j)
        ⟨Other_Node u j, (infow.routing_table j2).dist⟩ with h | h
      · exact Or.inl h
      · exact Or.inr ⟨j2, hj2, h.2⟩
    · left
      have hfr := Update_table info (Build_Distance_Vector blankVector infow).1 j
      rw [hfr]
      rw [relaxEntry_of_not_Fires]
      rw [Fires_elements]
      rintro ⟨j2, hd, _⟩
      apply hex
      refine ⟨j2, ?_⟩
      rw [(Build_spec blankVector infow).2.2.1 j2, hwf.2.1 j] at hd
      rw [← hwfw.2.1 j2]
      exact hd.symm

/-- A distance below `MAX_DIST` is never raised by an update. -/
theorem Update_dist_mono (info : Info_Config) (dv : Dist_Vect) (j : Fin MAX_NEIGHBORS)
    (hlt : (info.routing_table j).dist < MAX_DIST) :
    ((Update_Routing_Table info dv).1.routing_table j).dist ≤ (info.routing_table j).dist := by
  rw [Update_table]
  apply relaxEntry_invariant (fun e => e.dist ≤ (info.routing_table j).dist)
  · intro e el _ he
    exact le_trans (relaxOne_mono _ _ e el (lt_of_le_of_lt he hlt)) he
  · exact le_refl _

theorem step_le_candidate (topo : Topology) (u w : Char) (hw : w ∈ nodes)
    (info infow : Info_Config) (hwf : Well_Formed topo u info)
    (hwfw : Well_Formed topo w infow) (hl : Has_Link topo u w) (j j2 : Fin MAX_NEIGHBORS)
    (hj2 : Other_Node w j2 = Other_Node u j) :
    ((Update_Routing_Table info (Build_Distance_Vector blankVector infow).1).1.routing_table j).dist
        ≤ (infow.routing_table j2).dist + topo.cost u w := by
  rw [((Update_from_neighbor topo u w hw info infow hwf hwfw hl).2 j).2 j2 hj2]
  exact relaxOne_le_candidate _ _ _ _ (hwf.2.1 j)

theorem step_Walk_Backed (topo : Topology) (u w : Char) (hw : w ∈ nodes)
    (info infow : Info_Config) (hwf : Well_Formed topo u info)
    (hwfw : Well_Formed topo w infow) (hl : Has_Link topo u w)
    (hb : Walk_Backed topo u info) (hbw : Walk_Backed topo w infow) :
    Walk_Backed topo u (Update_Routing_Table info (Build_Distance_Vector blankVector infow).1).1 := by
  intro j
  rcases step_dist_cases topo u w hw info infow hwf hwfw hl j with h | ⟨j2, hj2, h⟩
  · rw [h]
    exact hb j
  · rw [h]
    rcases hbw j2 with hmax | ⟨p, hp1, hp2, hp3⟩
    · left
      have := hl.2.2.1
      omega
    · right
      refine ⟨w :: p, ⟨hl, hp1⟩, ?_, ?_⟩
      · show Walk_End w p = _
        rw [hp2, hj2]
      · show topo.cost u w + Walk_Cost topo w p = _
        rw [hp3]
        exact add_comm _ _

/-! ## The invariant of the rounds -/

theorem Net_Inv_start (topo : Topology) (prior : Char → Info_Config) :
    Net_Inv topo 0 (Network_Start topo prior) := by
  intro u hu
  obtain ⟨_, hwf, hdist⟩ := Network_Start_spec topo prior u hu
  refine ⟨hwf, ?_, ?_⟩
  · intro j
    rw [hdist j]
    by_cases hl : Has_Link topo u (Other_Node u j)
    · rw [if_pos hl]
      right
      exact ⟨[Other_Node u j], ⟨hl, trivial⟩, rfl, by simp [Walk_Cost]⟩
    · rw [if_neg hl]
      exact Or.inl (le_refl _)
  · intro j p hp hend hlen _
    cases p with
    | nil => exact absurd hend.symm (Other_Node_ne u hu j).2
    | cons v rest =>
      cases rest with
      | nil =>
        have hv : v = Other_Node u j := hend
        subst hv
        rw [hdist j, if_pos hp.1]
        simp [Walk_Cost]
      | cons v2 rest2 =>
        simp only [List.length_cons] at hlen
        omega

theorem Net_Inv_round (topo : Topology) (k : Nat) (net : Char → Info_Config)
    (hinv : Net_Inv topo k net) : Net_Inv topo (k + 1) (Exchange_Round net) := by
  have hnet : ∀ w ∈ nodes, Well_Formed topo w (net w) := fun w hw => (hinv w hw).1
  intro u hu
  obtain ⟨hwf, hb, hub⟩ := hinv u hu
  have h1 := Receive_From_preserves topo net u hnet (Walk_Backed topo u)
    (fun acc w hacc hl hp =>
      step_Walk_Backed topo u w hl.1 acc (net w) hacc (hnet w hl.1) hl hp (hinv w hl.1).2.1)
    (List.finRange MAX_NEIGHBORS) (net u) hwf hb
  refine ⟨h1.1, h1.2, ?_⟩
  intro j p hp hend hlen hcost
  show ((Receive_From net (List.finRange MAX_NEIGHBORS) (net u)).routing_table j).dist ≤ _
  have hpres : ∀ acc w2, Well_Formed topo u acc → Has_Link topo u w2 →
      (acc.routing_table j).dist ≤ Walk_Cost topo u p →
      ((Update_Routing_Table acc
        (Build_Distance_Vector blankVector (net w2)).1).1.routing_table j).dist ≤
        Walk_Cost topo u p := by
    intro acc w2 _ _ hq
    exact le_trans (Update_dist_mono acc _ j (lt_of_le_of_lt hq hcost)) hq
  cases p with
  | nil => exact absurd hend.symm (Other_Node_ne u hu j).2
  | cons w q =>
    obtain ⟨hl, hq⟩ := hp
    have hqcost : 0 ≤ Walk_Cost topo w q :=
      le_trans (Int.ofNat_nonneg _) (Walk_length_le_cost topo q w hq)
    by_cases hwn : w = Other_Node u j
    · have hold : ((net u).routing_table j).dist ≤ topo.cost u w := by
        have := hub j [w] ⟨hl, trivial⟩ hwn (by simp)
          (by
            simp only [Walk_Cost, add_zero]
            exact hl.2.2.2)
        simpa [Walk_Cost] using this
      have hold2 : ((net u).routing_table j).dist ≤ Walk_Cost topo u (w :: q) := by
        show _ ≤ topo.cost u w + Walk_Cost topo w q
        omega
      exact (Receive_From_preserves topo net u hnet
        (fun info => (info.routing_table j).dist ≤ Walk_Cost topo u (w :: q))
        hpres (List.finRange MAX_NEIGHBORS) (net u) hwf hold2).2
    · obtain ⟨j2, hj2⟩ := Other_Node_exists w (Other_Node u j) hl.1 (Other_Node_ne u hu j).1
        (fun h => hwn h.symm)
      have hwq : ((net w).routing_table j2).dist ≤ Walk_Cost topo w q := by
        apply (hinv w hl.1).2.2 j2 q hq (by rw [hj2]; exact hend)
        · simp only [List.length_cons] at hlen
          omega
        · have hc : Walk_Cost topo u (w :: q) = topo.cost u w + Walk_Cost topo w q := rfl
          have := hl.2.2.1
          omega
      obtain ⟨kw, hkw, hkd, _⟩ := (hwf.2.2 w (topo.cost u w)).mpr ⟨hl, rfl⟩
      apply Receive_From_establishes topo net u w hnet
        (fun info => (info.routing_table j).dist ≤ Walk_Cost topo u (w :: q))
        ?_ hpres (List.finRange MAX_NEIGHBORS) (net u) hwf
        ⟨kw, List.mem_finRange kw, hkw, hkd⟩
      intro acc hacc
      have := step_le_candidate topo u w hl.1 acc (net w) hacc (hnet w hl.1) hl j j2 hj2
      have hc : Walk_Cost topo u (w :: q) = topo.cost u w + Walk_Cost topo w q := rfl
      show _ ≤ Walk_Cost topo u (w :: q)
      omega

theorem Net_Inv_rounds (topo : Topology) (prior : Char → Info_Config) (n : Nat) :
    Net_Inv topo n (Exchange_Rounds n (Network_Start topo prior)) := by
  induction n with
  | zero => exact Net_Inv_start topo prior
  | succ n ih => exact Net_Inv_round topo n _ ih

/-! ## Convergence -/

/-- A table that holds shortest-path distances below `MAX_DIST` is not changed by
the vector of a neighbour whose distances are backed by walks. -/
theorem Update_flag_zero_of_shortest (topo : Topology) (u w : Char)
    (info infow : Info_Config) (hwf : Well_Formed topo u info)
    (hwfw : Well_Formed topo w infow) (hl : Has_Link topo u w)
    (hbw : Walk_Backed topo w infow)
    (hsh : ∀ j, Is_Shortest topo u (Other_Node u j) (info.routing_table j).dist ∧
      (info.routing_table j).dist < MAX_DIST) :
    (Update_Routing_Table info (Build_Distance_Vector blankVector infow).1).2 = 0 := by
  rw [Update_flag_eq_zero_iff]
  intro j
  rw [Fires_elements]
  rintro ⟨j2, hd, himp⟩
  obtain ⟨b1, _, b3, _⟩ := Build_spec blankVector infow
  rw [b1, hwfw.1, Link_Cost_of_link topo u w info hwf hl] at himp
  rw [b3 j2] at hd himp
  rw [hwf.2.1 j, hwfw.2.1 j2] at hd
  obtain ⟨⟨_, hmin⟩, hlt⟩ := hsh j
  rcases himp with ⟨h1, _⟩ | h1
  · exact absurd h1 (ne_of_lt hlt)
  · have h2 : (info.routing_table j).dist > (infow.routing_table j2).dist + topo.cost u w := h1
    rcases hbw j2 with hmax | ⟨q, hq1, hq2, hq3⟩
    · have := hl.2.2.1
      omega
    · have := hmin (w :: q) ⟨hl, hq1⟩ (by show Walk_End w q = _; rw [hq2, hd])
      have hc : Walk_Cost topo u (w :: q) = topo.cost u w + Walk_Cost topo w q := rfl
      omega

/-- After `n` rounds the network has converged at every node, provided every pair
of nodes is joined by a least-cost walk of at most `n + 1` links and cost below
`MAX_DIST`. -/
theorem converged_of_hops (topo : Topology) (prior : Char → Info_Config) (n : Nat)
    (hK : ∀ u ∈ nodes, ∀ d ∈ nodes, u ≠ d →
      ∃ p, Is_Walk topo u p ∧ Walk_End u p = d ∧ p.length ≤ n + 1 ∧
        Walk_Cost topo u p < MAX_DIST ∧
        ∀ q, Is_Walk topo u q → Walk_End u q = d → Walk_Cost topo u p ≤ Walk_Cost topo u q) :
    ∀ u ∈ nodes, Converged_At topo (Exchange_Rounds n (Network_Start topo prior)) u := by
  have hinv := Net_Inv_rounds topo prior n
  have hsh : ∀ u ∈ nodes, ∀ j,
      Is_Shortest topo u (Other_Node u j)
        ((Exchange_Rounds n (Network_Start topo prior) u).routing_table j).dist ∧
      ((Exchange_Rounds n (Network_Start topo prior) u).routing_table j).dist < MAX_DIST := by
    intro u hu j
    obtain ⟨_, hb, hub⟩ := hinv u hu
    obtain ⟨hn1, hn2⟩ := Other_Node_ne u hu j
    obtain ⟨p, hp1, hp2, hp3, hp4, hp5⟩ := hK u hu (Other_Node u j) hn1 (fun h => hn2 h.symm)
    have hle := hub j p hp1 hp2 hp3 hp4
    rcases hb j with hmax | ⟨q, hq1, hq2, hq3⟩
    · omega
    · have hge := hp5 q hq1 hq2
      have heq : ((Exchange_Rounds n (Network_Start topo prior) u).routing_table j).dist =
          Walk_Cost topo u p := by omega
      rw [heq]
      exact ⟨⟨⟨p, hp1, hp2, rfl⟩, hp5⟩, hp4⟩
  intro u hu
  obtain ⟨hwf, _, _⟩ := hinv u hu
  refine ⟨fun j => ⟨hwf.2.1 j, (hsh u hu j).1⟩, ?_⟩
  intro k hk
  have hl := neighbor_has_link topo u _ hwf k hk
  exact Update_flag_zero_of_shortest topo u _ _ _ hwf (hinv _ hl.1).1 hl
    (hinv _ hl.1).2.1 (hsh u hu)

/-- A function that is `0` on the diagonal and obeys the triangle inequality along
every link is a lower bound for the cost of walks. -/
theorem potential_le_walk (topo : Topology) (dist : Char → Char → Int)
    (hzero : ∀ d ∈ nodes, dist d d ≤ 0)
    (htri : ∀ u ∈ nodes, ∀ v ∈ nodes, ∀ d ∈ nodes, Has_Link topo u v →
      dist u d ≤ topo.cost u v + dist v d)
    (p : List Char) :
    ∀ u ∈ nodes, Is_Walk topo u p → dist u (Walk_End u p) ≤ Walk_Cost topo u p := by
  induction p with
  | nil =>
    intro u hu _
    exact hzero u hu
  | cons v rest ih =>
    intro u hu hp
    have h1 := ih v hp.1.1 hp.2
    have h2 := htri u hu v hp.1.1 (Walk_End v rest) (Walk_End_mem topo rest v hp.1.1 hp.2) hp.1
    show dist u (Walk_End v rest) ≤ topo.cost u v + Walk_Cost topo v rest
    omega

/-- Rounds bounded by cost: after `n` rounds the network has converged when every
shortest-path distance is below `MAX_DIST` and at most `n`.  (A walk has no more
links than its cost.) -/
theorem converged_of_cost_bound (topo : Topology) (prior : Char → Info_Config) (bound : Nat)
    (hbound : ∀ u ∈ nodes, ∀ d ∈ nodes, u ≠ d →
      ∃ x, Is_Shortest topo u d x ∧ x < MAX_DIST ∧ x ≤ (bound : Int)) :
    ∀ n, bound ≤ n → ∀ u ∈ nodes,
      Converged_At topo (Exchange_Rounds n (Network_Start topo prior)) u := by
  intro n hn
  apply converged_of_hops
  intro u hu d hd hne
  obtain ⟨x, ⟨⟨p, hp1, hp2, hp3⟩, hmin⟩, hlt, hle⟩ := hbound u hu d hd hne
  refine ⟨p, hp1, hp2, ?_, by rw [hp3]; exact hlt, fun q hq1 hq2 => by rw [hp3]; exact hmin q hq1 hq2⟩
  have := Walk_length_le_cost topo p u hp1
  have hn2 : (bound : Int) ≤ (n : Int) := by exact_mod_cast hn
  have : (p.length : Int) ≤ (n : Int) + 1 := by omega
  exact_mod_cast this

theorem mesh_all_linked : ∀ u ∈ nodes, ∀ d ∈ nodes, u ≠ d → Has_Link meshTopology u d := by
  decide

theorem mesh_shortest : ∀ u ∈ nodes, ∀ d ∈ nodes, u ≠ d →
    ∃ x, Is_Shortest meshTopology u d x ∧ x < MAX_DIST := by
  have hlow := potential_le_walk meshTopology meshDistance (by decide) (by decide)
  have hpath : ∀ u ∈ nodes, ∀ d ∈ nodes, u ≠ d →
      Is_Walk meshTopology u (meshPath u d) ∧ Walk_End u (meshPath u d) = d ∧
      Walk_Cost meshTopology u (meshPath u d) = meshDistance u d ∧
      meshDistance u d < MAX_DIST := by decide
  intro u hu d hd hne
  obtain ⟨h1, h2, h3, h4⟩ := hpath u hu d hd hne
  refine ⟨meshDistance u d, ⟨⟨meshPath u d, h1, h2, h3⟩, ?_⟩, h4⟩
  intro q hq1 hq2
  have := hlow q u hu hq1
  rw [hq2] at this
  exact this

/-- C6, as stated, fails.  In `meshTopology` the costs are symmetric, every two
nodes have a direct link (so the graph's diameter is 1: one link joins every pair,
and no two different nodes are joined by fewer) and every shortest-path distance is
below `MAX_DIST`.  Yet after one round node A still holds the direct cost 10 for D,
while the walk A-B-C-D costs 3: no number of rounds `r ≤ 1` gives the shortest-path
distances from then on. -/
theorem C6_hop_diameter_counterexample :
    ¬ ∀ (topo : Topology) (prior : Char → Info_Config) (diameter : Nat),
        (∀ u ∈ nodes, ∀ v ∈ nodes, topo.cost u v = topo.cost v u) →
        (∀ u ∈ nodes, ∀ d ∈ nodes, u ≠ d → ∃ x, Is_Shortest topo u d x ∧ x < MAX_DIST) →
        (∀ u ∈ nodes, ∀ d ∈ nodes, u ≠ d →
          ∃ p, Is_Walk topo u p ∧ Walk_End u p = d ∧ p.length ≤ diameter) →
        (∃ u ∈ nodes, ∃ d ∈ nodes, u ≠ d ∧
          ∀ p, Is_Walk topo u p → Walk_End u p = d → diameter ≤ p.length) →
        ∃ r, r ≤ diameter ∧ ∀ n, r ≤ n → ∀ u ∈ nodes,
          Converged_At topo (Exchange_Rounds n (Network_Start topo prior)) u := by
  intro h
  obtain ⟨r, hr, hc⟩ := h meshTopology (fun _ => garbageInfo) 1 (by decide) mesh_shortest
    (fun u hu d hd hne => ⟨[d], ⟨mesh_all_linked u hu d hd hne, trivial⟩, rfl, le_refl _⟩)
    ⟨'A', by decide, 'B', by decide, by decide, fun p _ hend => by
      cases p with
      | nil => exact absurd hend (by decide)
      | cons v rest => simp⟩
  have hsh := ((hc 1 hr 'A' (by decide)).1 2).2
  have hdist : ((Exchange_Rounds 1 (Network_Start meshTopology (fun _ => garbageInfo))
      'A').routing_table 2).dist = 10 := by decide
  have hnode : Other_Node 'A' 2 = 'D' := by decide
  have hwalk : Is_Walk meshTopology 'A' ['B', 'C', 'D'] := by decide
  have hcost : Walk_Cost meshTopology 'A' ['B', 'C', 'D'] = 3 := by decide
  have hle := hsh.2 ['B', 'C', 'D'] hwalk (by rw [hnode]; rfl)
  rw [hdist, hcost] at hle
  exact absurd hle (by decide)

/-- C6, amended: the rounds are bounded by the number of links on least-cost paths.
For every topology over the nodes A..G in which every two nodes are joined by a
least-cost walk of cost below `MAX_DIST` that has at most `links` links, every
node's `Populate_From_Config` returns its initial state, and after every number
`n` of full rounds with `links ≤ n + 1` (so there is such a number `r ≤ links`,
and every later one) each node's table holds in every slot the shortest-path
distance to the slot's destination and every `Update_Routing_Table` call on a
neighbour's vector returns 0. -/
theorem C6_rounds_converge_within_least_cost_links (topo : Topology)
    (prior : Char → Info_Config) (links : Nat)
    (hlinks : ∀ u ∈ nodes, ∀ d ∈ nodes, u ≠ d →
      ∃ p, Is_Walk topo u p ∧ Walk_End u p = d ∧ p.length ≤ links ∧
        Walk_Cost topo u p < MAX_DIST ∧
        ∀ q, Is_Walk topo u q → Walk_End u q = d → Walk_Cost topo u p ≤ Walk_Cost topo u q) :
    (∀ u ∈ nodes, Populate_From_Config u 0 (Config_Of topo u) (prior u) =
      some (Network_Start topo prior u)) ∧
    (∀ n, links ≤ n + 1 → ∀ u ∈ nodes,
      Converged_At topo (Exchange_Rounds n (Network_Start topo prior)) u) ∧
    ∃ r, r ≤ links ∧ ∀ n, r ≤ n → ∀ u ∈ nodes,
      Converged_At topo (Exchange_Rounds n (Network_Start topo prior)) u := by
  have key : ∀ n, links ≤ n + 1 → ∀ u ∈ nodes,
      Converged_At topo (Exchange_Rounds n (Network_Start topo prior)) u := by
    intro n hn
    apply converged_of_hops
    intro u hu d hd hne
    obtain ⟨p, h1, h2, h3, h4, h5⟩ := hlinks u hu d hd hne
    exact ⟨p, h1, h2, le_trans h3 hn, h4, h5⟩
  exact ⟨fun u hu => (Network_Start_spec topo prior u hu).1, key,
    links, le_refl _, fun n hn => key n (le_trans hn (Nat.le_succ n))⟩

theorem hub_least_cost_paths : ∀ u ∈ nodes, ∀ d ∈ nodes, u ≠ d →
    ∃ p, Is_Walk hubTopology u p ∧ Walk_End u p = d ∧ p.length ≤ 2 ∧
      Walk_Cost hubTopology u p < MAX_DIST ∧
      ∀ q, Is_Walk hubTopology u q → Walk_End u q = d →
        Walk_Cost hubTopology u p ≤ Walk_Cost hubTopology u q := by
  have hlow := potential_le_walk hubTopology hubDistance (by decide) (by decide)
  have hpath : ∀ u ∈ nodes, ∀ d ∈ nodes, u ≠ d →
      Is_Walk hubTopology u (hubPath u d) ∧ Walk_End u (hubPath u d) = d ∧
      (hubPath u d).length ≤ 2 ∧
      Walk_Cost hubTopology u (hubPath u d) = hubDistance u d ∧
      hubDistance u d < MAX_DIST := by decide
  intro u hu d hd hne
  obtain ⟨h1, h2, h3, h4, h5⟩ := hpath u hu d hd hne
  refine ⟨hubPath u d, h1, h2, h3, by rw [h4]; exact h5, ?_⟩
  intro q hq1 hq2
  have := hlow q u hu hq1
  rw [hq2] at this
  rw [h4]
  exact this

/-- Witness for C6 (amended): in the hub topology least-cost walks have at most 2
links (B reaches C over A at cost 2, not by the direct link of cost 5), so the
network has converged after one round. -/
theorem C6_rounds_converge_within_least_cost_links_witness :
    (∀ u ∈ nodes, Populate_From_Config u 0 (Config_Of hubTopology u) garbageInfo =
      some (Network_Start hubTopology (fun _ => garbageInfo) u)) ∧
    (∀ u ∈ nodes, Converged_At hubTopology
      (Exchange_Rounds 1 (Network_Start hubTopology (fun _ => garbageInfo))) u) ∧
    ((Exchange_Rounds 1 (Network_Start hubTopology (fun _ => garbageInfo))
      'B').routing_table 1).dist = 2 :=
  ⟨(C6_rounds_converge_within_least_cost_links hubTopology (fun _ => garbageInfo) 2
      hub_least_cost_paths).1,
    (C6_rounds_converge_within_least_cost_links hubTopology (fun _ => garbageInfo) 2
      hub_least_cost_paths).2.1 1 (le_refl _),
    by decide⟩

end DistVect
